import Mathlib

/-!
Verification of the Mamba semantic pipeline (`mamba.sema`): the type algebra,
the constraint solver (unification, conformance checking, specialization,
disjunctive search), and the scope passes, shallowly embedded from the
Python sources.

Modelling conventions, used throughout:

* Python object identity of `TypeVariable` and `TypePlaceholder` instances
  is modelled with unique numeric ids.  Identity tests (`a is b`) on walked
  types are modelled with structural equality, which coincides with
  identity under the discipline of the passes: ground types are
  module-level singletons compared by name, and variable and placeholder
  ids are allocated by monotonic counters, so two structurally equal
  leaves are the same Python object, and identity short-circuits on
  aggregates are observationally equivalent to the recursive traversal.
* Python dictionaries are modelled as insertion-ordered association lists
  with unique keys; assignment of a fresh key appends at the end.
* Python exceptions split into `SemanticError` values (`Failure.sem`,
  caught by the solver loop), assertion errors (`Failure.assertFail`,
  never caught), and `Failure.fuel`, which models exhaustion of the
  Python recursion limit (`RecursionError`) in the recursive walking and
  unification procedures.  Recursive procedures take an explicit fuel
  argument for this reason.
* Source ranges are opaque and modelled as natural numbers.
-/

namespace Mamba

/-- Model of a `placeholders` list element.  The Python constructors
`ObjectType.__init__` and `FunctionType.__init__` receive an arbitrary list
and assert that every element is a `TypePlaceholder` instance; the
constraint inferer actually passes the parser's plain name strings, so the
model keeps both possibilities. -/
inductive PlaceholderItem where
  | str (s : String)
  | ph (id : Nat) (nm : String)
deriving DecidableEq, Repr

mutual
/-- The type algebra of `mamba.sema.types`.  `base` models a plain
`types.Type` instance carrying only a description (the built-in dot and
exclamation operators); `alias` models `TypeAlias`; `listTy phId elem`
models a `ListType` whose distinguished `Element` placeholder object has
id `phId` and whose `element_type` is `elem`. -/
inductive Ty where
  | ground (nm : String)
  | base (descr : String)
  | var (id : Nat)
  | placeholder (id : Nat) (nm : String)
  | alias (subject : Ty)
  | object (props : Props) (phs : List PlaceholderItem)
  | function (domain codomain : Ty) (phs : List PlaceholderItem)
  | union (types : TyList)
  | listTy (phId : Nat) (elem : Ty)
  | specializedTy (base : Ty) (args : Props)
deriving Repr

/-- The insertion-ordered property dictionary of an `ObjectType`. -/
inductive Props where
  | nil
  | cons (key : String) (val : Ty) (rest : Props)
deriving Repr

/-- The member list of a `UnionType`. -/
inductive TyList where
  | nil
  | cons (hd : Ty) (tl : TyList)
deriving Repr
end

mutual
/-- Structural equality on types; under the unique-id discipline it also
models Python object identity (see the module comment). -/
def Ty.beq : Ty → Ty → Bool
  | .ground a, .ground b => a == b
  | .base a, .base b => a == b
  | .var a, .var b => a == b
  | .placeholder a an, .placeholder b bn => a == b && an == bn
  | .alias a, .alias b => Ty.beq a b
  | .object p1 x1, .object p2 x2 => Props.beq p1 p2 && x1 == x2
  | .function d1 c1 x1, .function d2 c2 x2 => Ty.beq d1 d2 && Ty.beq c1 c2 && x1 == x2
  | .union t1, .union t2 => TyList.beq t1 t2
  | .listTy i1 e1, .listTy i2 e2 => i1 == i2 && Ty.beq e1 e2
  | .specializedTy b1 a1, .specializedTy b2 a2 => Ty.beq b1 b2 && Props.beq a1 a2
  | _, _ => false

def Props.beq : Props → Props → Bool
  | .nil, .nil => true
  | .cons k1 v1 r1, .cons k2 v2 r2 => k1 == k2 && Ty.beq v1 v2 && Props.beq r1 r2
  | _, _ => false

def TyList.beq : TyList → TyList → Bool
  | .nil, .nil => true
  | .cons h1 t1, .cons h2 t2 => Ty.beq h1 h2 && TyList.beq t1 t2
  | _, _ => false
end

mutual
theorem Ty.beq_sound : ∀ (a b : Ty), Ty.beq a b = true → a = b
  | .ground a, .ground b, h => by
      simp only [Ty.beq, beq_iff_eq] at h; rw [h]
  | .base a, .base b, h => by
      simp only [Ty.beq, beq_iff_eq] at h; rw [h]
  | .var a, .var b, h => by
      simp only [Ty.beq, beq_iff_eq] at h; rw [h]
  | .placeholder a an, .placeholder b bn, h => by
      simp only [Ty.beq, Bool.and_eq_true, beq_iff_eq] at h; rw [h.1, h.2]
  | .alias a, .alias b, h => by
      rw [Ty.beq_sound a b h]
  | .object p1 x1, .object p2 x2, h => by
      simp only [Ty.beq, Bool.and_eq_true, beq_iff_eq] at h
      rw [propsBeq_sound p1 p2 h.1, h.2]
  | .function d1 c1 x1, .function d2 c2 x2, h => by
      simp only [Ty.beq, Bool.and_eq_true, beq_iff_eq] at h
      rw [Ty.beq_sound d1 d2 h.1.1, Ty.beq_sound c1 c2 h.1.2, h.2]
  | .union t1, .union t2, h => by
      rw [tyListBeq_sound t1 t2 h]
  | .listTy i1 e1, .listTy i2 e2, h => by
      simp only [Ty.beq, Bool.and_eq_true, beq_iff_eq] at h
      rw [h.1, Ty.beq_sound e1 e2 h.2]
  | .specializedTy b1 a1, .specializedTy b2 a2, h => by
      simp only [Ty.beq, Bool.and_eq_true] at h
      rw [Ty.beq_sound b1 b2 h.1, propsBeq_sound a1 a2 h.2]

theorem propsBeq_sound : ∀ (a b : Props), Props.beq a b = true → a = b
  | .nil, .nil, _ => rfl
  | .cons k1 v1 r1, .cons k2 v2 r2, h => by
      simp only [Props.beq, Bool.and_eq_true, beq_iff_eq] at h
      rw [h.1.1, Ty.beq_sound v1 v2 h.1.2, propsBeq_sound r1 r2 h.2]

theorem tyListBeq_sound : ∀ (a b : TyList), TyList.beq a b = true → a = b
  | .nil, .nil, _ => rfl
  | .cons h1 t1, .cons h2 t2, h => by
      simp only [TyList.beq, Bool.and_eq_true] at h
      rw [Ty.beq_sound h1 h2 h.1, tyListBeq_sound t1 t2 h.2]
end

mutual
theorem Ty.beq_refl : ∀ (a : Ty), Ty.beq a a = true
  | .ground a => by simp [Ty.beq]
  | .base a => by simp [Ty.beq]
  | .var a => by simp [Ty.beq]
  | .placeholder a an => by simp [Ty.beq]
  | .alias a => Ty.beq_refl a
  | .object p1 x1 => by simp [Ty.beq, propsBeq_refl p1]
  | .function d1 c1 x1 => by simp [Ty.beq, Ty.beq_refl d1, Ty.beq_refl c1]
  | .union t1 => tyListBeq_refl t1
  | .listTy i1 e1 => by simp [Ty.beq, Ty.beq_refl e1]
  | .specializedTy b1 a1 => by simp [Ty.beq, Ty.beq_refl b1, propsBeq_refl a1]

theorem propsBeq_refl : ∀ (a : Props), Props.beq a a = true
  | .nil => rfl
  | .cons k v r => by simp [Props.beq, Ty.beq_refl v, propsBeq_refl r]

theorem tyListBeq_refl : ∀ (a : TyList), TyList.beq a a = true
  | .nil => rfl
  | .cons h t => by simp [TyList.beq, Ty.beq_refl h, tyListBeq_refl t]
end

instance : DecidableEq Ty := fun a b =>
  if h : Ty.beq a b = true then .isTrue (Ty.beq_sound a b h)
  else .isFalse (fun e => h (e ▸ Ty.beq_refl a))

instance : DecidableEq Props := fun a b =>
  if h : Props.beq a b = true then .isTrue (propsBeq_sound a b h)
  else .isFalse (fun e => h (e ▸ propsBeq_refl a))

instance : DecidableEq TyList := fun a b =>
  if h : TyList.beq a b = true then .isTrue (tyListBeq_sound a b h)
  else .isFalse (fun e => h (e ▸ tyListBeq_refl a))

theorem Ty.beq_iff_eq (a b : Ty) : Ty.beq a b = true ↔ a = b :=
  ⟨Ty.beq_sound a b, fun e => e ▸ Ty.beq_refl a⟩

/-- Python `isinstance(t, TypeVariable)`. -/
def Ty.isVar : Ty → Bool
  | .var _ => true
  | _ => false

/-- Python `len(object_type.properties)`. -/
def Props.len : Props → Nat
  | .nil => 0
  | .cons _ _ r => r.len + 1

/-- Python `name in object_type.properties` (dictionary key membership). -/
def Props.hasKey : Props → String → Bool
  | .nil, _ => false
  | .cons k _ r, n => k == n || r.hasKey n

/-- Python `object_type.properties[name]` (unique keys in well-formed
dictionaries; the first match is returned). -/
def Props.lookup : Props → String → Option Ty
  | .nil, _ => none
  | .cons k v r, n => if k == n then some v else r.lookup n

/-- The insertion-ordered key list of a property dictionary. -/
def Props.keys : Props → List String
  | .nil => []
  | .cons k _ r => k :: r.keys

/-- Semantic errors (`mamba.sema.exc`).  `specializationFailure` models the
*SpecializationError* of the specification (reported by the specialization
traversal, see `specialize` below); the others mirror the exception classes
of `exc.py`. -/
inductive SemErr where
  | unification (lhs rhs : Ty) (message : String) (range : Nat)
  | semantic (message : String) (range : Nat)
  | duplicateDeclaration (nm : String) (range : Nat)
  | unboundName (nm : String) (range : Nat)
  | specializationFailure (range : Nat)
deriving DecidableEq, Repr

/-- Outcomes of a Python call in the solver: a `SemanticError` (caught by
the `solutions` loop), exhaustion of the recursion limit (`RecursionError`,
modelled by explicit fuel), or an uncaught `AssertionError` /
`StopIteration`. -/
inductive Failure where
  | sem (e : SemErr)
  | fuel
  | assertFail (msg : String)
deriving DecidableEq, Repr

/-- The substitution `ConstraintSolver.solution`: an insertion-ordered
dictionary from type-variable id to type. -/
abbrev Sol := List (Nat × Ty)

def lookupNat : List (Nat × Ty) → Nat → Option Ty
  | [], _ => none
  | (k, v) :: r, n => if k == n then some v else lookupNat r n

/-- Fuel-indexed chain following for `ConstraintSolver.walk`. -/
def walkF (sol : Sol) : Nat → Ty → Except Failure Ty
  | 0, _ => .error .fuel
  | fuel+1, t =>
    match t with
    | .var v =>
      match lookupNat sol v with
      | some t2 => walkF sol fuel t2
      | none => .ok (.var v)
    | t2 => .ok t2

/-- `ConstraintSolver.walk`: follow the substitution while the type is a
bound variable.  The Python recursion terminates exactly when the chain
visits pairwise distinct keys, so `sol.length + 1` steps of fuel
characterise termination precisely: `.error .fuel` is returned exactly when
the Python original recurses forever through a key cycle. -/
def walk (sol : Sol) (t : Ty) : Except Failure Ty :=
  walkF sol (sol.length + 1) t

/-- Monadic map over the values of a property dictionary. -/
def propsMapValsM (f : Ty → Except Failure Ty) : Props → Except Failure Props
  | .nil => .ok .nil
  | .cons k v r => do
    let v2 ← f v
    let r2 ← propsMapValsM f r
    .ok (.cons k v2 r2)

/-- `ConstraintSolver.deep_walk`: rebuild aggregates with walked children.
Variables, then `TypeAlias`, `FunctionType` and `ObjectType` are handled;
every other `Type` instance (ground types, placeholders, `UnionType`,
`ListType`, plain `Type`) falls to the final `isinstance(ty, types.Type)`
catch-all and is returned unchanged.  The Python memoisation table only
serves to rebuild cyclic object graphs, which have no counterpart among
finite trees; the fuel models the Python recursion limit. -/
def deepWalk (sol : Sol) : Nat → Ty → Except Failure Ty
  | 0, _ => .error .fuel
  | fuel+1, t =>
    match t with
    | .var v => do
      let w ← walk sol (.var v)
      match w with
      | .var v2 => .ok (.var v2)
      | other => deepWalk sol fuel other
    | .alias s => do
      let s2 ← deepWalk sol fuel s
      .ok (.alias s2)
    | .function d c phs => do
      let d2 ← deepWalk sol fuel d
      let c2 ← deepWalk sol fuel c
      .ok (.function d2 c2 phs)
    | .object ps phs => do
      let ps2 ← propsMapValsM (fun x => deepWalk sol fuel x) ps
      .ok (.object ps2 phs)
    | other => .ok other

/-- The property-by-property loop of `ConstraintSolver.unify` for two
object types without the `_0` sugar: iterate the left dictionary in
insertion order; a key missing on the right raises a `UnificationError`
whose payload is the two full object types deep-walked in the current
(partially extended) substitution.  `u` and `dw` are instantiated with
`unify` and `deep_walk` at the enclosing fuel. -/
def unifyProps (u : Sol → Ty → Ty → Except Failure Sol)
    (dw : Sol → Ty → Except Failure Ty) (aFull bFull : Ty) (range : Nat)
    (ps2 : Props) : Sol → Props → Except Failure Sol
  | sol, .nil => .ok sol
  | sol, .cons k v r =>
    match ps2.lookup k with
    | none => do
      let a3 ← dw sol aFull
      let b3 ← dw sol bFull
      .error (.sem (.unification a3 b3 "incompatible types" range))
    | some v2 => do
      let sol2 ← u sol v v2
      unifyProps u dw aFull bFull range ps2 sol2 r

/-- Python `(len(a) == 1) and ('_0' in a.properties)`. -/
def sugarSide (ps : Props) : Bool :=
  ps.len == 1 && ps.hasKey "_0"

/-- `ConstraintSolver.unify`.  Both sides are walked; equal references
unify trivially; a variable is bound to the other side (appended to the
substitution, with no occurs check); two function types recurse on domains
and codomains; two object types use the `_0` label-omission sugar when one
side is a singleton `_0` dictionary (`next` on an empty dictionary raises
`StopIteration`) and otherwise iterate the left side's properties; any
other combination raises a `UnificationError` with deep-walked payload. -/
def unify : Nat → Sol → Ty → Ty → Nat → Except Failure Sol
  | 0, _, _, _, _ => .error .fuel
  | fuel+1, sol, ty0, ty1, range => do
    let a ← walk sol ty0
    let b ← walk sol ty1
    if Ty.beq a b then .ok sol
    else
      match a, b with
      | .var v, b2 => .ok (sol ++ [(v, b2)])
      | a2, .var w => .ok (sol ++ [(w, a2)])
      | .function d1 c1 _, .function d2 c2 _ => do
        let sol2 ← unify fuel sol d1 d2 range
        unify fuel sol2 c1 c2 range
      | .object ps1 phs1, .object ps2 phs2 =>
        if sugarSide ps1 || sugarSide ps2 then
          match ps1, ps2 with
          | .cons _ l _, .cons _ r _ => unify fuel sol l r range
          | _, _ => .error (.assertFail "StopIteration")
        else
          unifyProps (fun s x y => unify fuel s x y range)
            (fun s t => deepWalk s fuel t)
            (.object ps1 phs1) (.object ps2 phs2) range ps2 sol ps1
      | a2, b2 => do
        let a3 ← deepWalk sol fuel a2
        let b3 ← deepWalk sol fuel b2
        .error (.sem (.unification a3 b3 "incompatible types" range))

/-- The property loop of `ConstraintSolver.check_conformance`: iterate the
left (actual) side's properties and require each on the right (expected)
side; a key missing on the right raises a `UnificationError` whose payload
is the two walked types (not deep-walked) and whose message names the
missing property. -/
def confProps (c : Sol → Ty → Ty → Except Failure Sol)
    (aFull bFull : Ty) (range : Nat) (ps2 : Props) :
    Sol → Props → Except Failure Sol
  | sol, .nil => .ok sol
  | sol, .cons k v r =>
    match ps2.lookup k with
    | none => .error (.sem (.unification aFull bFull
        ("type does not have a property " ++ k) range))
    | some v2 => do
      let sol2 ← c sol v v2
      confProps c aFull bFull range ps2 sol2 r

/-- `ConstraintSolver.check_conformance`.  Both sides are walked; equal
references conform, as does anything to the empty object type on the
right; two object types use the `_0` sugar or iterate the left side's
properties; a left-side variable degrades to unification; every other
combination hits the closing `assert False` (an uncaught
`AssertionError`). -/
def checkConf : Nat → Sol → Ty → Ty → Nat → Except Failure Sol
  | 0, _, _, _, _ => .error .fuel
  | fuel+1, sol, ty0, ty1, range => do
    let a ← walk sol ty0
    let b ← walk sol ty1
    if Ty.beq a b || (match b with | .object .nil _ => true | _ => false) then
      .ok sol
    else
      match a, b with
      | .object ps1 phs1, .object ps2 phs2 =>
        if sugarSide ps1 || sugarSide ps2 then
          match ps1, ps2 with
          | .cons _ l _, .cons _ r _ => checkConf fuel sol l r range
          | _, _ => .error (.assertFail "StopIteration")
        else
          confProps (fun s x y => checkConf fuel s x y range)
            (.object ps1 phs1) (.object ps2 phs2) range ps2 sol ps1
      | .var v, b2 => unify fuel sol (.var v) b2 range
      | _, _ => .error (.assertFail "unimplemented conformance")

/-- Modelled from the spec: the function `types.specialize(generic,
pattern)` is called by `ConstraintSolver.solve_specialization` but is
absent from the source tree (`mamba/sema/types.py` defines no
`specialize`), as is the *SpecializationError* it reports.  Following
section 4.5 of the specification, in the order stated there: a
`TypePlaceholder` is substituted with the pattern, and a placeholder
matched again against a differing pattern fails with *SpecializationError*;
otherwise, if either side is a type variable the generic side is returned
unchanged; two `FunctionType`s recurse on domain and codomain; anything
else fails.  The memo accumulates the placeholder substitution, keyed by
placeholder id. -/
def specialize (range : Nat) : Ty → Ty → List (Nat × Ty) →
    Except Failure (Ty × List (Nat × Ty))
  | .placeholder i _, pattern, memo =>
    match lookupNat memo i with
    | some t =>
      if Ty.beq t pattern then .ok (pattern, memo)
      else .error (.sem (.specializationFailure range))
    | none => .ok (pattern, memo ++ [(i, pattern)])
  | g, pattern, memo =>
    if g.isVar || pattern.isVar then .ok (g, memo)
    else
      match g, pattern with
      | .function d c phs, .function dp cp _ => do
        let dm ← specialize range d dp memo
        let cm ← specialize range c cp dm.2
        .ok (.function dm.1 cm.1 phs, cm.2)
      | _, _ => .error (.sem (.specializationFailure range))

/-- `Constraint.Kind` of `mamba.sema.constraint`. -/
inductive CKind where
  | equals
  | specializes
  | conforms
  | disjunction
deriving DecidableEq, Repr

/-- The `Enum` values: `equals = 1`, `specializes = 2`, `conforms = 3`,
`disjunction = 4`.  `Constraint.__lt__` compares these values. -/
def CKind.val : CKind → Nat
  | .equals => 1
  | .specializes => 2
  | .conforms => 3
  | .disjunction => 4

/-- A `Constraint`.  `cid` models Python object identity (`_list_eq`
compares list elements with `is`); the remaining fields model the `kwargs`
of the respective kinds (`lhs`/`rhs` for the three binary kinds, `args`
for specialization, `choices` for disjunctions), with unused fields left
at don't-care defaults. -/
inductive Constraint where
  | mk (cid : Nat) (kind : CKind) (lhs rhs : Ty) (args : List (String × Ty))
      (choices : List Constraint) (srange : Nat)

def Constraint.cid : Constraint → Nat
  | .mk c _ _ _ _ _ _ => c

def Constraint.kind : Constraint → CKind
  | .mk _ k _ _ _ _ _ => k

def Constraint.lhs : Constraint → Ty
  | .mk _ _ l _ _ _ _ => l

def Constraint.rhs : Constraint → Ty
  | .mk _ _ _ r _ _ _ => r

def Constraint.args : Constraint → List (String × Ty)
  | .mk _ _ _ _ a _ _ => a

def Constraint.choices : Constraint → List Constraint
  | .mk _ _ _ _ _ ch _ => ch

def Constraint.srange : Constraint → Nat
  | .mk _ _ _ _ _ _ r => r

/-- Stable insertion of a constraint into a list sorted by kind value:
the new element goes after every element whose kind value is not greater. -/
def sInsert (c : Constraint) : List Constraint → List Constraint
  | [] => [c]
  | d :: ds => if c.kind.val < d.kind.val then c :: d :: ds else d :: sInsert c ds

/-- Python `sorted(constraints)` in `ConstraintSolver.__init__` (Timsort:
stable, keyed by `Constraint.__lt__`, i.e. by `kind.value`). -/
def sortConstraints (cs : List Constraint) : List Constraint :=
  cs.foldl (fun acc c => sInsert c acc) []

/-- Result of `ConstraintSolver.solve_constraint` on one constraint:
continue the loop with updated work list and substitution, raise, or (for
a disjunction) spawn one sub-solver per choice and clear the work list. -/
inductive StepResult where
  | next (cs : List Constraint) (sol : Sol)
  | fail (f : Failure)
  | spawn (choices : List Constraint)

/-- Python `getattr(b, 'placeholders', None)` (with `[]` and `None` both
falsy): object and function types carry the attribute directly, and
`ListType.placeholders` is a property returning the singleton list of its
distinguished placeholder when the element type still *is* that
placeholder, `None` otherwise.  Other types have no such attribute. -/
def placeholdersAttr : Ty → List PlaceholderItem
  | .object _ phs => phs
  | .function _ _ phs => phs
  | .listTy i e => if Ty.beq e (.placeholder i "Element") then [.ph i "Element"] else []
  | _ => []

/-- `ConstraintSolver.solve_conformity`: walk both sides; defer while the
right side is a variable; degrade to an equality when the left side is a
variable; otherwise check conformance. -/
def solveConformity (recFuel : Nat) (c : Constraint) (rest : List Constraint)
    (sol : Sol) : StepResult :=
  match walk sol c.lhs, walk sol c.rhs with
  | .error f, _ => .fail f
  | _, .error f => .fail f
  | .ok a, .ok b =>
    if b.isVar then .next (rest ++ [c]) sol
    else if a.isVar then
      match unify recFuel sol c.lhs c.rhs c.srange with
      | .ok sol2 => .next rest sol2
      | .error f => .fail f
    else
      match checkConf recFuel sol a b c.srange with
      | .ok sol2 => .next rest sol2
      | .error f => .fail f

/-- `ConstraintSolver.solve_specialization`: walk both sides; defer while
the right side is a variable; with no (or falsy) `placeholders` attribute
degrade to an equality; otherwise compute `set(args) - set(b.placeholders)`
— the explicit argument names are *strings* while the placeholders of a
well-formed type are `TypePlaceholder` objects, so a string name is a
member of the placeholder set only if the list literally contains that
string — and raise on a non-empty difference; finally specialize the right
side against the left and solve the equality between the specialization
and the left side. -/
def solveSpecialization (recFuel : Nat) (c : Constraint)
    (rest : List Constraint) (sol : Sol) : StepResult :=
  match walk sol c.lhs, walk sol c.rhs with
  | .error f, _ => .fail f
  | _, .error f => .fail f
  | .ok a, .ok b =>
    if b.isVar then .next (rest ++ [c]) sol
    else if (placeholdersAttr b).isEmpty then
      match unify recFuel sol c.lhs c.rhs c.srange with
      | .ok sol2 => .next rest sol2
      | .error f => .fail f
    else
      let unspecified := (c.args.map Prod.fst).filter
        (fun k => !((placeholdersAttr b).contains (.str k)))
      if !unspecified.isEmpty then
        .fail (.sem (.semantic "superfluous explicit specializations" c.srange))
      else
        match specialize c.srange b a [] with
        | .error f => .fail f
        | .ok sp =>
          match unify recFuel sol sp.1 a c.srange with
          | .ok sol2 => .next rest sol2
          | .error f => .fail f

/-- `ConstraintSolver.solve_constraint`: dispatch on the kind.  A
disjunction replaces the sub-system list with one child solver per choice
(each receiving the chosen constraint prepended to the remaining work list
and a copy of the substitution) and clears the work list. -/
def solveConstraint (recFuel : Nat) (c : Constraint) (rest : List Constraint)
    (sol : Sol) : StepResult :=
  match c.kind with
  | .equals =>
    match unify recFuel sol c.lhs c.rhs c.srange with
    | .ok sol2 => .next rest sol2
    | .error f => .fail f
  | .conforms => solveConformity recFuel c rest sol
  | .specializes => solveSpecialization recFuel c rest sol
  | .disjunction => .spawn c.choices

/-- The observable behaviour of iterating a `ConstraintSolver` generator:
the list of yielded elements — each one either a `SemanticError` object or
a solution dictionary — followed by the exception, if any, that the
generator raises into the consumer (the unsolvable-system detector's
`SemanticError`, an `AssertionError`, or `RecursionError`). -/
structure GenOutput where
  yielded : List (Except SemErr Sol)
  raised : Option Failure
deriving Repr

/-- Python `prevs[-n:]`. -/
def takeLast (n : Nat) (l : List (List Nat)) : List (List Nat) :=
  l.drop (l.length - n)

/-- The identity snapshot of a work list (`_list_eq` compares elements
with `is`). -/
def cids (cs : List Constraint) : List Nat :=
  cs.map Constraint.cid

/-- Deep-walk every entry of the substitution (the dictionary
comprehension yielded by `solutions` when the work list drains with no
sub-systems). -/
def solDeepWalk (dwFuel : Nat) (sol : Sol) : Sol → Except Failure Sol
  | [] => .ok []
  | (v, t) :: r => do
    let t2 ← deepWalk sol dwFuel t
    let r2 ← solDeepWalk dwFuel sol r
    .ok ((v, t2) :: r2)

/-- Yield the deep-walked solution; a failure while building the
comprehension is raised to the consumer instead. -/
def yieldSol (dwFuel : Nat) (sol : Sol) : GenOutput :=
  match solDeepWalk dwFuel sol sol with
  | .ok m => ⟨[.ok m], none⟩
  | .error f => ⟨[], some f⟩

/-- Drain sub-solvers in `pop()` order: yield each child's elements in
turn; an exception raised inside a child propagates through the drain loop
and aborts it, so later children are not drained. -/
def combineOuts : List (Option GenOutput) → Option GenOutput
  | [] => some ⟨[], none⟩
  | none :: _ => none
  | some o :: rest =>
    if o.raised.isSome then some o
    else
      match combineOuts rest with
      | none => none
      | some o2 => some ⟨o.yielded ++ o2.yielded, o2.raised⟩

/-- `ConstraintSolver.solutions`.  Each loop iteration first compares the
current work list (by element identity) against the retained previous
snapshots and raises the unsolvable-system `SemanticError` on a match,
then trims the snapshot window to the current list length and appends the
current snapshot, then pops the front constraint and dispatches.  A
`SemanticError` raised while solving a constraint is caught, yielded, and
ends the generator; other exceptions propagate.  When the work list
empties normally the deep-walked substitution is yielded; a disjunction
empties the work list into sub-solvers, which are drained last-first.
`loopFuel` bounds the number of loop iterations (nested drains included);
`none` models an infinite loop, which `solver_terminates` below rules
out. -/
def runSolver : Nat → Nat → Nat → List (List Nat) → List Constraint → Sol →
    Option GenOutput
  | 0, _, _, _, _, _ => none
  | loopFuel+1, recFuel, dwFuel, prevs, cs, sol =>
    match cs with
    | [] => some (yieldSol dwFuel sol)
    | c :: rest =>
      if prevs.any (fun l => l == cids cs) then
        some ⟨[], some (.sem (.semantic "constraint system appear to be unsolvable"
          c.srange))⟩
      else
        let prevs2 := takeLast cs.length prevs ++ [cids cs]
        match solveConstraint recFuel c rest sol with
        | .next cs2 sol2 => runSolver loopFuel recFuel dwFuel prevs2 cs2 sol2
        | .fail (.sem e) => some ⟨[.error e], none⟩
        | .fail f => some ⟨[], some f⟩
        | .spawn choices =>
          if choices.isEmpty then some (yieldSol dwFuel sol)
          else
            combineOuts (choices.reverse.map
              (fun ch => runSolver loopFuel recFuel dwFuel []
                (sortConstraints (ch :: rest)) sol))

/-- A whole `ConstraintSolver(constraints=cs)` run as performed by
`main.py`: constraints sorted on construction, empty partial solution,
fresh snapshot window. -/
def solverMain (loopFuel recFuel dwFuel : Nat) (cs : List Constraint) :
    Option GenOutput :=
  runSolver loopFuel recFuel dwFuel [] (sortConstraints cs) []

/-!  The abstract syntax tree (`mamba.ast.nodes`) and the scope passes.
Each node carries a `nid` modelling its Python object identity; the
annotations the passes store on nodes (`inner_scope`, the resolved scope
of an identifier, `symbol`, `type`) are modelled as finite maps from node
id.  The infix operator slot holds the lexer token, which is not a `Node`
and is therefore skipped by `generic_visit`; it is modelled by its string
value.  The visitor passes are given recursion fuel (one unit per tree
level); every tree is finite, so any fuel exceeding the tree depth is
exact. -/

inductive ASTNode where
  | module (nid : Nat) (declarations : List ASTNode) (srange : Nat)
  | functionDeclaration (nid : Nat) (nm : String) (placeholders : List String)
      (domain codomain body : ASTNode) (srange : Nat)
  | typeDeclaration (nid : Nat) (nm : String) (placeholders : List String)
      (body : ASTNode) (srange : Nat)
  | functionTypeN (nid : Nat) (domain codomain : ASTNode) (srange : Nat)
  | objectTypeN (nid : Nat) (properties : List ASTNode) (srange : Nat)
  | objectTypeProperty (nid : Nat) (nm : String) ( annotation : Option ASTNode)
      (srange : Nat)
  | unionTypeN (nid : Nat) (types : List ASTNode) (srange : Nat)
  | closureExpression (nid : Nat) (domain : ASTNode) (codomain : Option ASTNode)
      (body : ASTNode) (srange : Nat)
  | infixExpression (nid : Nat) (operatorTok : String) (left right : ASTNode)
      (srange : Nat)
  | callExpression (nid : Nat) (callee argument : ASTNode) (srange : Nat)
  | ifExpression (nid : Nat) (condition thenBranch elseBranch : ASTNode)
      (srange : Nat)
  | matchExpression (nid : Nat) (subject : ASTNode) (cases : List ASTNode)
      (srange : Nat)
  | whenCase (nid : Nat) (pattern body : ASTNode) (srange : Nat)
  | elseCase (nid : Nat) (body : ASTNode) (srange : Nat)
  | identifier (nid : Nat) (nm : String) (specializers : List (String × ASTNode))
      (srange : Nat)
  | scalarString (nid : Nat) (value : String) (srange : Nat)
  | scalarInt (nid : Nat) (value : Nat) (srange : Nat)
  | objectLiteral (nid : Nat) (properties : List ASTNode) (srange : Nat)
  | objectLiteralProperty (nid : Nat) (key value : ASTNode) (srange : Nat)
  | listLiteral (nid : Nat) (items : List ASTNode) (srange : Nat)
  | argRef (nid : Nat) (srange : Nat)
  | nothingN (nid : Nat) (srange : Nat)

def ASTNode.nid : ASTNode → Nat
  | .module n _ _ => n
  | .functionDeclaration n _ _ _ _ _ _ => n
  | .typeDeclaration n _ _ _ _ => n
  | .functionTypeN n _ _ _ => n
  | .objectTypeN n _ _ => n
  | .objectTypeProperty n _ _ _ => n
  | .unionTypeN n _ _ => n
  | .closureExpression n _ _ _ _ => n
  | .infixExpression n _ _ _ _ => n
  | .callExpression n _ _ _ => n
  | .ifExpression n _ _ _ _ => n
  | .matchExpression n _ _ _ => n
  | .whenCase n _ _ _ => n
  | .elseCase n _ _ => n
  | .identifier n _ _ _ => n
  | .scalarString n _ _ => n
  | .scalarInt n _ _ => n
  | .objectLiteral n _ _ => n
  | .objectLiteralProperty n _ _ _ => n
  | .listLiteral n _ _ => n
  | .argRef n _ => n
  | .nothingN n _ => n

/-- The `Node`-valued children of a node in `_fields` order, as traversed
by `Visitor.generic_visit` (string fields and the operator token are not
nodes and are skipped; `Identifier._fields` is `('name',)`, so the
specializer dictionary is not traversed generically). -/
def ASTNode.children : ASTNode → List ASTNode
  | .module _ ds _ => ds
  | .functionDeclaration _ _ _ d c b _ => [d, c, b]
  | .typeDeclaration _ _ _ b _ => [b]
  | .functionTypeN _ d c _ => [d, c]
  | .objectTypeN _ ps _ => ps
  | .objectTypeProperty _ _ a _ => a.toList
  | .unionTypeN _ ts _ => ts
  | .closureExpression _ d c b _ => [d] ++ c.toList ++ [b]
  | .infixExpression _ _ l r _ => [l, r]
  | .callExpression _ c a _ => [c, a]
  | .ifExpression _ c t e _ => [c, t, e]
  | .matchExpression _ s cs _ => s :: cs
  | .whenCase _ p b _ => [p, b]
  | .elseCase _ b _ => [b]
  | .identifier _ _ _ _ => []
  | .scalarString _ _ _ => []
  | .scalarInt _ _ _ => []
  | .objectLiteral _ ps _ => ps
  | .objectLiteralProperty _ k v _ => [k, v]
  | .listLiteral _ is _ => is
  | .argRef _ _ => []
  | .nothingN _ _ => []

/-- A `Symbol` (`mamba.sema.symbol`): its Python object identity is
modelled by `sid`.  The default type of a symbol is a fresh
`TypeVariable`. -/
structure Symbol where
  sid : Nat
  nm : String
  ty : Ty
  overloadable : Bool
deriving DecidableEq, Repr

/-- A `Scope`: parent pointer (an arena index) and the insertion-ordered
dictionary from name to the list of homonymous symbols. -/
structure Scope where
  parent : Option Nat
  symbols : List (String × List Symbol)
deriving Repr

/-- `Scope.insert`: append the symbol to the name's list, creating the
entry at the end of the dictionary when absent (Python
`symbols[name] = symbols.get(name, []) + [symbol]` keeps an existing
key's position). -/
def scopeInsert (sc : Scope) (s : Symbol) : Scope :=
  if (sc.symbols.map Prod.fst).contains s.nm then
    let updated := sc.symbols.map (fun e => if e.1 == s.nm then (e.1, e.2 ++ [s]) else e)
    { sc with symbols := updated }
  else
    { sc with symbols := sc.symbols ++ [(s.nm, [s])] }

/-- `Scope.first(where=lambda s: s.name == nm)`: scan the name lists in
dictionary order and return the first symbol with the given name (the
scope builder only ever instantiates the predicate with name equality). -/
def scopeFirst (sc : Scope) (nm : String) : Option Symbol :=
  ((sc.symbols.map Prod.snd).flatten.filter (fun s => s.nm == nm)).head?

/-- `scope[name]` (`Scope.__getitem__`, i.e. `symbols.get(name)`). -/
def scopeGet (sc : Scope) (nm : String) : Option (List Symbol) :=
  (sc.symbols.find? (fun e => e.1 == nm)).map Prod.snd

/-- `name in scope.symbols`. -/
def scopeHasName (sc : Scope) (nm : String) : Bool :=
  (sc.symbols.map Prod.fst).contains nm

abbrev Arena := List Scope

def getScope (arena : Arena) (i : Nat) : Scope :=
  arena.getD i ⟨none, []⟩

/-- `Scope.find_scope_of`: walk the parent chain for the innermost scope
declaring the name.  The fuel bounds the chain length; in every arena the
passes build, parents point to strictly smaller indices, so
`arena.length + 1` units are exact. -/
def findScopeOfF (arena : Arena) : Nat → Option Nat → String → Option Nat
  | 0, _, _ => none
  | _, none, _ => none
  | fuel+1, some i, nm =>
    if scopeHasName (getScope arena i) nm then some i
    else findScopeOfF arena fuel (getScope arena i).parent nm

def findScopeOf (arena : Arena) (start : Option Nat) (nm : String) : Option Nat :=
  findScopeOfF arena (arena.length + 1) start nm

/-- The process-wide `builtin_scope` of `mamba.sema.symbol`, with fixed
symbol ids 0–11 and the `ListType` singleton's `Element` placeholder given
id 0.  No builtin symbol uses the fresh-variable default type. -/
def builtinList : Ty := .listTy 0 (.placeholder 0 "Element")

def builtinScope : Scope :=
  ⟨none,
    [("Object", [⟨0, "Object", .alias (.object .nil []), false⟩]),
     ("Bool", [⟨1, "Bool", .alias (.ground "Bool"), false⟩]),
     ("Int", [⟨2, "Int", .alias (.ground "Int"), false⟩]),
     ("Float", [⟨3, "Float", .alias (.ground "Float"), false⟩]),
     ("String", [⟨4, "String", .alias (.ground "String"), false⟩]),
     ("List", [⟨5, "List", .alias builtinList, false⟩]),
     (".", [⟨6, ".", .base "built-in dot operator", true⟩]),
     ("!", [⟨7, "!", .base "built-in exclamation operator", true⟩,
            ⟨8, "!", .function
              (.object (.cons "lhs" builtinList
                (.cons "rhs" (.ground "Int") .nil)) [])
              (.placeholder 0 "Element") [.ph 0 "Element"], true⟩]),
     ("+", [⟨9, "+", .function
              (.object (.cons "lhs" (.ground "Int")
                (.cons "rhs" (.ground "Int") .nil)) [])
              (.ground "Int") [], true⟩,
            ⟨10, "+", .function
              (.object (.cons "lhs" (.ground "Float")
                (.cons "rhs" (.ground "Float") .nil)) [])
              (.ground "Float") [], true⟩]),
     ("print", [⟨11, "print", .function
              (.object (.cons "item" (.object .nil []) .nil) [])
              (.ground "Nothing") [], true⟩])]⟩

/-- The state of `ScopeBuilder`: the scope arena (index 0 is the builtin
scope), the scope stack (head is `scopes[-1]`), the collected errors, the
`inner_scope` annotations, the `node.symbol` annotations, and the three
monotonic id counters (type variables, symbols, placeholders; placeholder
id 0 is the builtin `Element`). -/
structure BuildState where
  arena : Arena
  stack : List Nat
  errors : List SemErr
  innerScopes : List (Nat × Nat)
  nodeSymbols : List (Nat × Symbol)
  nextVar : Nat
  nextSid : Nat
  nextPh : Nat
deriving Repr

def initBuild : BuildState :=
  ⟨[builtinScope], [0], [], [], [], 0, 12, 1⟩

def BuildState.top (st : BuildState) : Nat :=
  st.stack.headD 0

def BuildState.insertTop (st : BuildState) (s : Symbol) : BuildState :=
  { st with arena := st.arena.set st.top (scopeInsert (getScope st.arena st.top) s) }

/-- Push a fresh scope whose parent is the current top and record it as
the node's `inner_scope`. -/
def BuildState.pushScope (st : BuildState) (nid : Nat) : BuildState :=
  { st with
      arena := st.arena ++ [⟨some st.top, []⟩],
      innerScopes := st.innerScopes ++ [(nid, st.arena.length)],
      stack := st.arena.length :: st.stack }

def BuildState.popScope (st : BuildState) : BuildState :=
  { st with stack := st.stack.tail }

/-- Insert the placeholder symbols of a declaration (each a fresh
`TypePlaceholder`) into the current scope. -/
def insertPlaceholders (st : BuildState) : List String → BuildState
  | [] => st
  | p :: ps =>
    let stA := st.insertTop ⟨st.nextSid, p, .placeholder st.nextPh p, false⟩
    let st2 := { stA with nextSid := st.nextSid + 1, nextPh := st.nextPh + 1 }
    insertPlaceholders st2 ps

/-- The scope set-up of `visit_FunctionDeclaration` after the symbol step:
push the declaration's inner scope, insert its placeholder symbols, and
insert the argument reference `$` with a fresh variable type. -/
def funcScopeSetup (nid : Nat) (phs : List String) (st2 : BuildState) : BuildState :=
  let st3 := insertPlaceholders (st2.pushScope nid) phs
  let stB := st3.insertTop ⟨st3.nextSid, "$", .var st3.nextVar, false⟩
  { stB with nextSid := st3.nextSid + 1, nextVar := st3.nextVar + 1 }

/-- The scope set-up of `visit_TypeDeclaration` after the symbol step. -/
def typeScopeSetup (nid : Nat) (phs : List String) (st2 : BuildState) : BuildState :=
  insertPlaceholders (st2.pushScope nid) phs

/-- `ScopeBuilder` (`mamba.sema.scope_builder`).  Only `Module`,
`FunctionDeclaration` and `TypeDeclaration` have visitor methods (the
source carries a FIXME for the other scope nodes); every other node is
traversed by `generic_visit`.  A function declaration whose name resolves
to an overloadable symbol reuses that symbol; a non-overloadable hit
records a `DuplicateDeclaration` and skips the whole declaration. -/
def visitB : Nat → ASTNode → BuildState → BuildState
  | 0, _, st => st
  | fuel+1, node, st =>
    match node with
    | .module nid decls _ =>
      let st2 := st.pushScope nid
      let st3 := decls.foldl (fun s d => visitB fuel d s) st2
      st3.popScope
    | .functionDeclaration nid nm phs dom cod body srange =>
      match scopeFirst (getScope st.arena st.top) nm with
      | none =>
        let sym : Symbol := ⟨st.nextSid, nm, .var st.nextVar, true⟩
        let stA := st.insertTop sym
        let st2 := { stA with
          nextSid := st.nextSid + 1, nextVar := st.nextVar + 1,
          nodeSymbols := st.nodeSymbols ++ [(nid, sym)] }
        let st5 := [dom, cod, body].foldl (fun s d => visitB fuel d s)
          (funcScopeSetup nid phs st2)
        st5.popScope
      | some s =>
        if !s.overloadable then
          { st with errors := st.errors ++ [.duplicateDeclaration nm srange] }
        else
          let st2 := { st with nodeSymbols := st.nodeSymbols ++ [(nid, s)] }
          let st5 := [dom, cod, body].foldl (fun s2 d => visitB fuel d s2)
            (funcScopeSetup nid phs st2)
          st5.popScope
    | .typeDeclaration nid nm phs body srange =>
      match scopeFirst (getScope st.arena st.top) nm with
      | none =>
        let sym : Symbol := ⟨st.nextSid, nm, .alias (.var st.nextVar), false⟩
        let stA := st.insertTop sym
        let st2 := { stA with
          nextSid := st.nextSid + 1, nextVar := st.nextVar + 1,
          nodeSymbols := st.nodeSymbols ++ [(nid, sym)] }
        let st4 := visitB fuel body (typeScopeSetup nid phs st2)
        st4.popScope
      | some _ =>
        { st with errors := st.errors ++ [.duplicateDeclaration nm srange] }
    | other =>
      other.children.foldl (fun s d => visitB fuel d s) st

def ASTNode.srange : ASTNode → Nat
  | .module _ _ r => r
  | .functionDeclaration _ _ _ _ _ _ r => r
  | .typeDeclaration _ _ _ _ r => r
  | .functionTypeN _ _ _ r => r
  | .objectTypeN _ _ r => r
  | .objectTypeProperty _ _ _ r => r
  | .unionTypeN _ _ r => r
  | .closureExpression _ _ _ _ r => r
  | .infixExpression _ _ _ _ r => r
  | .callExpression _ _ _ r => r
  | .ifExpression _ _ _ _ r => r
  | .matchExpression _ _ _ r => r
  | .whenCase _ _ _ r => r
  | .elseCase _ _ r => r
  | .identifier _ _ _ r => r
  | .scalarString _ _ r => r
  | .scalarInt _ _ r => r
  | .objectLiteral _ _ r => r
  | .objectLiteralProperty _ _ _ r => r
  | .listLiteral _ _ r => r
  | .argRef _ r => r
  | .nothingN _ r => r

def lookupPairs {α : Type} : List (Nat × α) → Nat → Option α
  | [], _ => none
  | (k, v) :: r, n => if k == n then some v else lookupPairs r n

/-- The state of `ScopeBinder`: the stack of pushed `inner_scope`s (an
entry is `none` when the scope builder skipped the declaration), the
collected errors, the resolved-scope annotation of each identifier and the
symbol annotation of each argument reference.  `crashed` records the
`AttributeError` the Python pass raises when it pushes a `None` inner
scope and then resolves a name through it, or the failed singleton
assertion on `scope['$']`. -/
structure BindState where
  stack : List (Option Nat)
  errors : List SemErr
  idScopes : List (Nat × Nat)
  argRefSyms : List (Nat × Symbol)
  crashed : Bool
deriving Repr

/-- `ScopeBinder` (`mamba.sema.scope_binder`): push the inner scope of
`Module`, `FunctionDeclaration` and `TypeDeclaration` nodes; resolve each
`Identifier` to the innermost scope declaring its name (recording
`UnboundName` on failure); resolve each `ArgRef` to the unique `$`
symbol. -/
def visitS (arena : Arena) (inner : List (Nat × Nat)) :
    Nat → ASTNode → BindState → BindState
  | 0, _, st => st
  | fuel+1, node, st =>
    if st.crashed then st else
    match node with
    | .module nid decls _ =>
      let st2 := { st with stack := (lookupPairs inner nid) :: st.stack }
      let st3 := decls.foldl (fun s d => visitS arena inner fuel d s) st2
      { st3 with stack := st3.stack.tail }
    | .functionDeclaration nid _ _ dom cod body _ =>
      let st2 := { st with stack := (lookupPairs inner nid) :: st.stack }
      let st3 := [dom, cod, body].foldl (fun s d => visitS arena inner fuel d s) st2
      { st3 with stack := st3.stack.tail }
    | .typeDeclaration nid _ _ body _ =>
      let st2 := { st with stack := (lookupPairs inner nid) :: st.stack }
      let st3 := visitS arena inner fuel body st2
      { st3 with stack := st3.stack.tail }
    | .identifier nid nm _ srange =>
      match st.stack.headD none with
      | none => { st with crashed := true }
      | some top =>
        match findScopeOf arena (some top) nm with
        | some sc => { st with idScopes := st.idScopes ++ [(nid, sc)] }
        | none => { st with errors := st.errors ++ [.unboundName nm srange] }
    | .argRef nid srange =>
      match st.stack.headD none with
      | none => { st with crashed := true }
      | some top =>
        match findScopeOf arena (some top) "$" with
        | some sc =>
          match scopeGet (getScope arena sc) "$" with
          | some [s] => { st with argRefSyms := st.argRefSyms ++ [(nid, s)] }
          | _ => { st with crashed := true }
        | none => { st with errors := st.errors ++ [.unboundName "$" srange] }
    | other =>
      other.children.foldl (fun s d => visitS arena inner fuel d s) st

/-- The state of `ConstraintInferer`: collected errors, emitted
constraints (each given a fresh `cid` modelling its object identity), the
`type` annotations, the `TypeVariable` counter shared with the builder,
and `raised`, the exception currently propagating (signature errors are
caught at declaration level and moved into `errors`; assertion errors
propagate out of the pass). -/
structure InferState where
  errors : List SemErr
  constraints : List Constraint
  nodeTypes : List (Nat × Ty)
  nextVar : Nat
  nextCid : Nat
  raised : Option Failure

/-- `PlaceholderItem` corresponding to a real `TypePlaceholder` object. -/
def PlaceholderItem.isPh : PlaceholderItem → Bool
  | .ph _ _ => true
  | .str _ => false

/-- `FunctionType.__init__(domain, codomain, placeholders)`: the
constructor asserts `isinstance(ph, TypePlaceholder)` for every element of
the placeholder list, so a list containing the parser's name strings
raises `AssertionError`. -/
def mkFunctionType (d c : Ty) (items : List PlaceholderItem) : Except Failure Ty :=
  if items.all PlaceholderItem.isPh then .ok (.function d c items)
  else .error (.assertFail "FunctionType placeholder is not a TypePlaceholder")

/-- Append a property at the end of the dictionary, or overwrite the
existing key in place (Python dictionary assignment). -/
def Props.setKey : Props → String → Ty → Props
  | .nil, k, v => .cons k v .nil
  | .cons k2 v2 r, k, v =>
    if k2 == k then .cons k2 v r else .cons k2 v2 (r.setKey k v)

/-- `Type.specialized` / `ListType.specialized`: a `ListType` rebuilds
itself around the `_0` or `Element` argument (a missing `Element` key is a
`KeyError`); every other type wraps itself in a `SpecializedType`. -/
def specializedApply (t : Ty) (args : Props) : Except Failure Ty :=
  match t with
  | .listTy i _ =>
    if args.keys == ["_0"] then
      match args.lookup "_0" with
      | some x => .ok (.listTy i x)
      | none => .error (.assertFail "KeyError")
    else
      match args.lookup "Element" with
      | some x => .ok (.listTy i x)
      | none => .error (.assertFail "KeyError")
  | _ => .ok (.specializedTy t args)

/-- The value of `node.type` read back by a parent visitor; Python reads
`None` for a node no visitor annotated, which the model keeps as a `base`
sentinel (the Python value only crashes later, if ever used). -/
def getNodeTy (st : InferState) (nid : Nat) : Ty :=
  (lookupPairs st.nodeTypes nid).getD (.base "None")

def InferState.setTy (st : InferState) (nid : Nat) (t : Ty) : InferState :=
  { st with nodeTypes := st.nodeTypes ++ [(nid, t)] }

def InferState.raiseSem (st : InferState) (e : SemErr) : InferState :=
  { st with raised := some (.sem e) }

def InferState.addConstraint (st : InferState) (k : CKind) (l r : Ty)
    (args : List (String × Ty)) (choices : List Constraint) (range : Nat) :
    InferState :=
  { st with
      constraints := st.constraints ++ [.mk st.nextCid k l r args choices range],
      nextCid := st.nextCid + 1 }

/-- The property loop of `_SignatureConstraintInferer.visit_ObjectType`:
each member must be an `ObjectTypeProperty` (assertion), duplicate names
raise `DuplicateDeclaration`, an unannotated property receives a fresh
variable, an annotated one the type of its annotation. -/
def sigObjProps (f : ASTNode → InferState → InferState) :
    List ASTNode → InferState → Props → InferState × Props
  | [], st, acc => (st, acc)
  | .objectTypeProperty _ pnm ann pr :: rest, st, acc =>
    if acc.hasKey pnm then
      (st.raiseSem (.duplicateDeclaration pnm pr), acc)
    else
      match ann with
      | none =>
        let st2 := { st with nextVar := st.nextVar + 1 }
        sigObjProps f rest st2 (acc.setKey pnm (.var st.nextVar))
      | some a =>
        let st2 := f a st
        if st2.raised.isSome then (st2, acc)
        else sigObjProps f rest st2 (acc.setKey pnm (getNodeTy st2 a.nid))
  | _ :: _, st, acc => ({ st with raised := some (.assertFail "not an ObjectTypeProperty") }, acc)

/-- Build the specialization-argument dictionary of an identifier
(`specialization_arguments`), visiting each value with the signature
visitor. -/
def sigSpecArgs (f : ASTNode → InferState → InferState) :
    List (String × ASTNode) → InferState → List (String × Ty) →
    InferState × List (String × Ty)
  | [], st, acc => (st, acc)
  | (k, child) :: rest, st, acc =>
    let st2 := f child st
    if st2.raised.isSome then (st2, acc)
    else sigSpecArgs f rest st2 (acc ++ [(k, getNodeTy st2 child.nid)])

/-- Collect the types of a union's members. -/
def unionMemberTys (st : InferState) : List ASTNode → TyList
  | [] => .nil
  | n :: rest => .cons (getNodeTy st n.nid) (unionMemberTys st rest)

/-- The specializer tail of `_SignatureConstraintInferer.visit_Identifier`:
`ty` is the resolved alias subject or placeholder, and `f` the signature
visitor (applied to the specializer values). -/
def sigIdentTail (f : ASTNode → InferState → InferState)
    (nid : Nat) (specs : List (String × ASTNode)) (srange : Nat) (ty : Ty)
    (st : InferState) : InferState :=
  if specs.isEmpty then st.setTy nid ty
  else
    let names := specs.map Prod.fst
    let extraneous := names.filter (fun k => !((placeholdersAttr ty).contains (.str k)))
    if names != ["_0"] && !extraneous.isEmpty then
      st.raiseSem (.semantic "extraneous explicit specializations" srange)
    else
      let sa := sigSpecArgs f specs st []
      if sa.1.raised.isSome then sa.1
      else
        match specializedApply ty (sa.2.foldl (fun p kv => p.setKey kv.1 kv.2) .nil) with
        | .ok t2 => sa.1.setTy nid t2
        | .error f2 => { sa.1 with raised := some f2 }

/-- `_SignatureConstraintInferer` (`mamba.sema.constraint_inferer`): the
sub-visitor for type signatures.  Identifiers must resolve to exactly one
symbol whose type is a `TypeAlias` (taking its subject) or a
`TypePlaceholder`; explicit specializers other than the `_0` sugar are
checked against `set(getattr(node.type, 'placeholders', []))` — a set of
`TypePlaceholder` objects compared against name strings, so any
non-sugar name counts as extraneous — and applied via `Type.specialized`.
Object types collect their properties; `Nothing` is the ground type
`Nothing`; union types collect member types; all other nodes (including
`FunctionType` syntax, which has no visitor) are traversed generically. -/
def sigVisit (arena : Arena) (idScopes : List (Nat × Nat)) :
    Nat → ASTNode → InferState → InferState
  | 0, _, st => { st with raised := some .fuel }
  | fuel+1, node, st =>
    if st.raised.isSome then st else
    match node with
    | .objectTypeN nid props _ =>
      let sp := sigObjProps (sigVisit arena idScopes fuel) props st .nil
      if sp.1.raised.isSome then sp.1 else sp.1.setTy nid (.object sp.2 [])
    | .identifier nid nm specs srange =>
      match lookupPairs idScopes nid with
      | none => st.raiseSem (.unboundName nm srange)
      | some sc =>
        match scopeGet (getScope arena sc) nm with
        | none => st.raiseSem (.unboundName nm srange)
        | some [] => st.raiseSem (.unboundName nm srange)
        | some (s :: restSyms) =>
          if !restSyms.isEmpty then
            st.raiseSem (.semantic "is not a type" srange)
          else
            match s.ty with
            | .alias subj =>
              sigIdentTail (sigVisit arena idScopes fuel) nid specs srange subj st
            | .placeholder i pnm =>
              sigIdentTail (sigVisit arena idScopes fuel) nid specs srange
                (.placeholder i pnm) st
            | _ => st.raiseSem (.semantic "is not a type" srange)
    | .nothingN nid _ => st.setTy nid (.ground "Nothing")
    | .unionTypeN nid ts _ =>
      let st2 := ts.foldl (fun s d => sigVisit arena idScopes fuel d s) st
      if st2.raised.isSome then st2 else st2.setTy nid (.union (unionMemberTys st2 ts))
    | other =>
      other.children.foldl (fun s d => sigVisit arena idScopes fuel d s) st

/-- The object-literal property loop of
`ConstraintInferer.visit_ObjectLiteral`: each member must be an
`ObjectLiteralProperty` whose key is a `ScalarLiteral` (assertions); key
and value are visited and the property dictionary maps the key value to
the value type (dictionary assignment, overwriting duplicates).  An
integer key is modelled by its decimal string. -/
def inferObjProps (f : ASTNode → InferState → InferState) :
    List ASTNode → InferState → Props → InferState × Props
  | [], st, acc => (st, acc)
  | .objectLiteralProperty _ k v _ :: rest, st, acc =>
    let key : Option String :=
      match k with
      | .scalarString _ s _ => some s
      | .scalarInt _ n _ => some (toString n)
      | _ => none
    match key with
    | none => ({ st with raised := some (.assertFail "key is not a scalar literal") }, acc)
    | some ks =>
      let st2 := f v (f k st)
      if st2.raised.isSome then (st2, acc)
      else inferObjProps f rest st2 (acc.setKey ks (getNodeTy st2 v.nid))
  | _ :: _, st, acc =>
    ({ st with raised := some (.assertFail "not an ObjectLiteralProperty") }, acc)

/-- `ConstraintInferer` (`mamba.sema.constraint_inferer`), the main
expression/declaration visitor.  `visit_InfixExpression` reads
`node.operator.scope`, but the parser stores the lexer *token* in the
operator slot and the scope binder therefore never annotates it, so the
access raises `AttributeError` (modelled by `assertFail`) on every infix
expression.  `visit_FunctionDeclaration` builds
`FunctionType(domain.type, codomain.type, node.placeholders)` where
`node.placeholders` is the parser's list of placeholder *names*, so the
constructor assertion fails whenever the list is non-empty. -/
def visitInf (arena : Arena) (idScopes : List (Nat × Nat))
    (inner : List (Nat × Nat)) (nodeSymbols argSyms : List (Nat × Symbol)) :
    Nat → ASTNode → InferState → InferState
  | 0, _, st => { st with raised := some .fuel }
  | fuel+1, node, st =>
    if st.raised.isSome then st else
    match node with
    | .typeDeclaration nid _ _ body srange =>
      match lookupPairs nodeSymbols nid with
      | none => { st with raised := some (.assertFail "AttributeError: symbol is None") }
      | some sym =>
        match sym.ty with
        | .alias subj =>
          let st2 := sigVisit arena idScopes fuel body st
          match st2.raised with
          | some (.sem e) =>
            { st2 with errors := st2.errors ++ [e], raised := none }
          | some _ => st2
          | none =>
            st2.addConstraint .equals subj (getNodeTy st2 body.nid) [] [] srange
        | _ => { st with raised := some (.assertFail "symbol type is not a TypeAlias") }
    | .functionDeclaration nid _ phs dom cod body srange =>
      match lookupPairs nodeSymbols nid with
      | none => st
      | some sym =>
        let st2 := sigVisit arena idScopes fuel cod (sigVisit arena idScopes fuel dom st)
        match st2.raised with
        | some (.sem e) =>
          { st2 with errors := st2.errors ++ [e], raised := none }
        | some _ => st2
        | none =>
          match mkFunctionType (getNodeTy st2 dom.nid) (getNodeTy st2 cod.nid)
              (phs.map PlaceholderItem.str) with
          | .error f => { st2 with raised := some f }
          | .ok fnTy =>
            let st3 := (st2.setTy nid fnTy).addConstraint .equals sym.ty fnTy [] [] srange
            match (lookupPairs inner nid).bind
                (fun i => scopeGet (getScope arena i) "$") with
            | some (argSym :: _) =>
              let st4 := st3.addConstraint .equals argSym.ty (getNodeTy st3 dom.nid) [] [] srange
              let st5 := visitInf arena idScopes inner nodeSymbols argSyms fuel body st4
              if st5.raised.isSome then st5
              else st5.addConstraint .conforms (getNodeTy st5 body.nid)
                (getNodeTy st5 cod.nid) [] [] body.srange
            | _ => { st3 with raised := some (.assertFail "inner_scope has no argument reference") }
    | .infixExpression nid _ l r _ =>
      let st2 := [l, r].foldl (fun s d => visitInf arena idScopes inner nodeSymbols argSyms fuel d s) st
      if st2.raised.isSome then st2
      else
        let st2b := st2.setTy nid (.var st2.nextVar)
        let st3 := { st2b with nextVar := st2.nextVar + 1 }
        { st3 with raised := some (.assertFail "AttributeError: Token has no scope") }
    | .callExpression nid callee arg srange =>
      let st2 := visitInf arena idScopes inner nodeSymbols argSyms fuel arg
        (visitInf arena idScopes inner nodeSymbols argSyms fuel callee st)
      if st2.raised.isSome then st2
      else
        let nodeTy : Ty := .var st2.nextVar
        let argTy : Ty := .var (st2.nextVar + 1)
        let retTy : Ty := .var (st2.nextVar + 2)
        let st2b := st2.setTy nid nodeTy
        let st3 := { st2b with nextVar := st2.nextVar + 3 }
        let st4 := st3.addConstraint .equals (getNodeTy st3 callee.nid)
          (.function argTy retTy []) [] [] srange
        let st5 := st4.addConstraint .conforms (getNodeTy st4 arg.nid) argTy [] [] srange
        st5.addConstraint .equals nodeTy retTy [] [] srange
    | .identifier nid nm specs srange =>
      match lookupPairs idScopes nid with
      | none => st
      | some sc =>
        match scopeGet (getScope arena sc) nm with
        | none => st
        | some [] => st
        | some syms =>
          let sa := sigSpecArgs (sigVisit arena idScopes fuel) specs st []
          if sa.1.raised.isSome then sa.1
          else
            let st2 := sa.1
            let st2b := st2.setTy nid (.var st2.nextVar)
            let st3 := { st2b with nextVar := st2.nextVar + 1 }
            let choices := (syms.enum.map (fun si =>
              Constraint.mk (st3.nextCid + si.1) .specializes (.var st2.nextVar)
                si.2.ty sa.2 [] srange))
            match choices with
            | [c] =>
              { st3 with
                  constraints := st3.constraints ++ [c]
                  nextCid := st3.nextCid + 1 }
            | _ =>
              let disj : Constraint := .mk (st3.nextCid + choices.length) .disjunction
                (.base "None") (.base "None") [] choices srange
              { st3 with
                  constraints := st3.constraints ++ [disj]
                  nextCid := st3.nextCid + choices.length + 1 }
    | .argRef nid _ =>
      match lookupPairs argSyms nid with
      | some s => st.setTy nid s.ty
      | none => { st with raised := some (.assertFail "AttributeError: symbol is None") }
    | .scalarString nid _ _ => st.setTy nid (.ground "String")
    | .scalarInt nid _ _ => st.setTy nid (.ground "Int")
    | .objectLiteral nid props _ =>
      let ip := inferObjProps
        (fun d s => visitInf arena idScopes inner nodeSymbols argSyms fuel d s) props st .nil
      if ip.1.raised.isSome then ip.1 else ip.1.setTy nid (.object ip.2 [])
    | other =>
      other.children.foldl (fun s d => visitInf arena idScopes inner nodeSymbols argSyms fuel d s) st

/-- The result of the three semantic passes of `main.py` (scope building,
scope binding, constraint inference) on a module. -/
structure PipelineResult where
  build : BuildState
  bind : BindState
  infer : InferState

/-- Run the semantic passes as `main.py` does, sharing the
`TypeVariable` counter between the builder and the inferer (the Python
counter is global and monotonic). -/
def pipeline (fuel : Nat) (m : ASTNode) : PipelineResult :=
  let b := visitB fuel m initBuild
  let s := visitS b.arena b.innerScopes fuel m ⟨[], [], [], [], false⟩
  let inf := visitInf b.arena s.idScopes b.innerScopes b.nodeSymbols s.argRefSyms fuel m
    ⟨[], [], [], b.nextVar, 0, none⟩
  ⟨b, s, inf⟩

/-!  Occurrence predicates on types.  `tyOccurs` counts every occurrence of
a variable; `occursW` counts only occurrences reachable through the
constructors `deep_walk` rebuilds (variables themselves, alias subjects,
function domains and codomains, object property values) — occurrences
inside union members, list element slots and specialization arguments are
returned unchanged by `deep_walk`'s `isinstance(ty, types.Type)`
catch-all. -/

mutual
def tyOccurs (v : Nat) : Ty → Bool
  | .ground _ => false
  | .base _ => false
  | .var w => w == v
  | .placeholder _ _ => false
  | .alias s => tyOccurs v s
  | .object ps _ => propsOccurs v ps
  | .function d c _ => tyOccurs v d || tyOccurs v c
  | .union ts => tyListOccurs v ts
  | .listTy _ e => tyOccurs v e
  | .specializedTy b args => tyOccurs v b || propsOccurs v args

def propsOccurs (v : Nat) : Props → Bool
  | .nil => false
  | .cons _ t r => tyOccurs v t || propsOccurs v r

def tyListOccurs (v : Nat) : TyList → Bool
  | .nil => false
  | .cons t r => tyOccurs v t || tyListOccurs v r
end

mutual
def occursW (v : Nat) : Ty → Bool
  | .var w => w == v
  | .alias s => occursW v s
  | .object ps _ => propsOccursW v ps
  | .function d c _ => occursW v d || occursW v c
  | _ => false

def propsOccursW (v : Nat) : Props → Bool
  | .nil => false
  | .cons _ t r => occursW v t || propsOccursW v r
end

/-!  Fixtures: the concrete programs and constraints used by the
theorems below. -/

/-- A conformance constraint (cid 0) and a specialization constraint
(cid 1), in that order. -/
def c4conf : Constraint := .mk 0 .conforms (.ground "A") (.ground "B") [] [] 0

def c4spec : Constraint := .mk 1 .specializes (.ground "A") (.ground "B") [] [] 0

/-- The object types of the conformance/unification counterexamples. -/
def objXY : Ty := .object (.cons "x" (.ground "Int") (.cons "y" (.ground "Int") .nil)) []

def objX : Ty := .object (.cons "x" (.ground "Int") .nil) []

def objEmpty : Ty := .object .nil []

theorem sInsert_perm (c : Constraint) (l : List Constraint) :
    (sInsert c l).Perm (c :: l) := by
  induction l with
  | nil => simp [sInsert]
  | cons d ds ih =>
    simp only [sInsert]
    by_cases h : c.kind.val < d.kind.val
    · simp [h]
    · simp only [h, if_false]
      exact (ih.cons d).trans (List.Perm.swap c d ds)

theorem sortConstraints_foldl_perm (cs : List Constraint) :
    ∀ acc : List Constraint,
      (cs.foldl (fun a c => sInsert c a) acc).Perm (acc ++ cs) := by
  induction cs with
  | nil => intro acc; simp
  | cons c cs ih =>
    intro acc
    simp only [List.foldl_cons]
    refine (ih (sInsert c acc)).trans ?_
    refine (List.Perm.append_right cs (sInsert_perm c acc)).trans ?_
    simpa using List.perm_middle.symm.trans (List.Perm.refl (acc ++ c :: cs))

theorem sortConstraints_perm (cs : List Constraint) :
    (sortConstraints cs).Perm cs := by
  simpa [sortConstraints] using sortConstraints_foldl_perm cs []

theorem sInsert_sorted (c : Constraint) (l : List Constraint)
    (h : l.Pairwise (fun a b => a.kind.val ≤ b.kind.val)) :
    (sInsert c l).Pairwise (fun a b => a.kind.val ≤ b.kind.val) := by
  induction l with
  | nil => simp [sInsert]
  | cons d ds ih =>
    rcases List.pairwise_cons.mp h with ⟨hd, hds⟩
    by_cases hcd : c.kind.val < d.kind.val
    · simp only [sInsert, hcd, if_true]
      refine List.pairwise_cons.mpr ⟨?_, h⟩
      intro x hx
      rcases List.mem_cons.mp hx with rfl | hx
      · exact Nat.le_of_lt hcd
      · exact Nat.le_trans (Nat.le_of_lt hcd) (hd x hx)
    · simp only [sInsert, hcd, if_false]
      refine List.pairwise_cons.mpr ⟨?_, ih hds⟩
      intro x hx
      have hx2 : x ∈ c :: ds := (sInsert_perm c ds).mem_iff.mp hx
      rcases List.mem_cons.mp hx2 with rfl | hx3
      · exact Nat.le_of_not_lt hcd
      · exact hd x hx3

theorem sortConstraints_foldl_sorted (cs : List Constraint) :
    ∀ acc : List Constraint,
      acc.Pairwise (fun a b => a.kind.val ≤ b.kind.val) →
      (cs.foldl (fun a c => sInsert c a) acc).Pairwise
        (fun a b => a.kind.val ≤ b.kind.val) := by
  induction cs with
  | nil => intro acc h; simpa using h
  | cons c cs ih =>
    intro acc h
    exact ih (sInsert c acc) (sInsert_sorted c acc h)

theorem sortConstraints_sorted (cs : List Constraint) :
    (sortConstraints cs).Pairwise (fun a b => a.kind.val ≤ b.kind.val) :=
  sortConstraints_foldl_sorted cs [] List.Pairwise.nil

theorem lookup_isSome_of_unifyProps_ok
    (u : Sol → Ty → Ty → Except Failure Sol) (dw : Sol → Ty → Except Failure Ty)
    (aF bF : Ty) (r : Nat) (ps2 : Props) :
    ∀ (ps1 : Props) (sol sol2 : Sol),
      unifyProps u dw aF bF r ps2 sol ps1 = .ok sol2 →
      ∀ k ∈ ps1.keys, (ps2.lookup k).isSome
  | .nil, sol, sol2, _, k, hk => by simp [Props.keys] at hk
  | .cons k0 v0 rest, sol, sol2, hok, k, hk => by
    simp only [unifyProps] at hok
    cases hlk : ps2.lookup k0 with
    | none =>
      rw [hlk] at hok
      cases hdw : dw sol aF with
      | error f => simp [hdw, Bind.bind, Except.bind] at hok
      | ok a3 =>
        cases hdw2 : dw sol bF with
        | error f => simp [hdw, hdw2, Bind.bind, Except.bind] at hok
        | ok b3 => simp [hdw, hdw2, Bind.bind, Except.bind] at hok
    | some v2 =>
      rw [hlk] at hok
      cases hu : u sol v0 v2 with
      | error f => simp [hu, Bind.bind, Except.bind] at hok
      | ok sol3 =>
        simp only [hu, Bind.bind, Except.bind] at hok
        rcases List.mem_cons.mp (by simpa [Props.keys] using hk) with rfl | hk2
        · simp [hlk]
        · exact lookup_isSome_of_unifyProps_ok u dw aF bF r ps2 rest sol3 sol2 hok k hk2

theorem Props.hasKey_of_mem_keys : ∀ (ps : Props) (k : String), k ∈ ps.keys →
    ps.hasKey k = true
  | .nil, k, h => by simp [Props.keys] at h
  | .cons k0 v0 rest, k, h => by
    rcases List.mem_cons.mp (by simpa [Props.keys] using h) with rfl | h2
    · simp [Props.hasKey]
    · simp [Props.hasKey, Props.hasKey_of_mem_keys rest k h2]

theorem Props.hasKey_of_lookup_isSome : ∀ (ps : Props) (k : String),
    (ps.lookup k).isSome → ps.hasKey k = true
  | .nil, k, h => by simp [Props.lookup] at h
  | .cons k0 v0 rest, k, h => by
    by_cases he : k0 == k
    · simp [Props.hasKey, he]
    · simp only [Props.lookup, he, if_false] at h
      simp [Props.hasKey, he, Props.hasKey_of_lookup_isSome rest k h]

/-- C3 (counterexample): unification of object types is not symmetric and
does not require identical key sets: the empty object type unifies with
`{x: Int}` when it is the left argument (its property loop is empty), but
swapping the arguments fails with a `UnificationError`, because only the
left side's keys are required on the right. -/
theorem C3_counterexample :
    unify 3 [] objEmpty objX 7 = .ok [] ∧
    unify 3 [] objX objEmpty 7 =
      .error (.sem (.unification objX objEmpty "incompatible types" 7)) :=
  ⟨rfl, rfl⟩

/-- C3 (amended): when `unify` succeeds on two object types, neither of
which uses the `_0` single-property sugar, every property key of the
*left* side is present on the right side; the key sets need not be equal
and the outcome is not symmetric in general (see the counterexample). -/
theorem C3_unify_object_left_subset (fuel : Nat) (sol sol2 : Sol)
    (ps1 ps2 : Props) (x1 x2 : List PlaceholderItem) (r : Nat)
    (h1 : sugarSide ps1 = false) (h2 : sugarSide ps2 = false)
    (hok : unify (fuel+1) sol (.object ps1 x1) (.object ps2 x2) r = .ok sol2) :
    ∀ k ∈ ps1.keys, ps2.hasKey k = true := by
  intro k hk
  have hwalk : ∀ (q : Props) (x : List PlaceholderItem),
      walk sol (.object q x) = .ok (.object q x) := by
    intro q x
    rfl
  simp only [unify, hwalk, Bind.bind, Except.bind] at hok
  cases hbeq : Ty.beq (.object ps1 x1) (.object ps2 x2) with
  | true =>
    have heq : (Ty.object ps1 x1) = (Ty.object ps2 x2) := Ty.beq_sound _ _ hbeq
    cases heq
    exact Props.hasKey_of_mem_keys ps1 k hk
  | false =>
    rw [hbeq] at hok
    simp only [Bool.false_eq_true, if_false, h1, h2, Bool.or_self] at hok
    exact Props.hasKey_of_lookup_isSome ps2 k
      (lookup_isSome_of_unifyProps_ok _ _ _ _ _ _ ps1 sol sol2 hok k hk)

/-- C3 (witness for the amended theorem): `unify({x:Int}, {x:Int,y:Int})`
succeeds, and indeed the left key `x` is present on the right. -/
theorem C3_unify_object_left_subset_witness :
    (Props.cons "x" (.ground "Int")
      (.cons "y" (.ground "Int") .nil)).hasKey "x" = true :=
  C3_unify_object_left_subset 2 [] []
    (Props.cons "x" (.ground "Int") .nil)
    (Props.cons "x" (.ground "Int") (.cons "y" (.ground "Int") .nil))
    [] [] 7 rfl rfl rfl "x" (List.mem_singleton.mpr rfl)

/-- C2: `check_conformance` iterates over the *left* (actual) side's
properties and requires each on the *right* (expected) side — the reverse
of both the claim and the `Constraint.Kind.conforms` docstring ("T1
conforms to T2 if all fields in T2 are contained in T1").  At the failing
input `lhs = {x:Int, y:Int}`, `rhs = {x:Int}` the claim expects success
but the code raises a `UnificationError` for the property `y`; conversely
`lhs = {x:Int}`, `rhs = {x:Int, y:Int}` should fail per the claim but
succeeds. -/
theorem C2_conformance_direction :
    checkConf 8 [] objXY objX 7 =
      .error (.sem (.unification objXY objX
        ("type does not have a property " ++ "y") 7)) ∧
    checkConf 8 [] objX objXY 7 = .ok [] :=
  ⟨rfl, rfl⟩

/-- C4 (counterexample): sorting the work list of a conformance constraint
(cid 0) and a specialization constraint (cid 1) puts the *specialization*
first, because `Kind.specializes.value = 2 < 3 = Kind.conforms.value` —
the claim's order (conformance before specialization) is violated. -/
theorem C4_counterexample :
    sortConstraints [c4conf, c4spec] = [c4spec, c4conf] ∧
    c4conf.kind = CKind.conforms ∧ c4spec.kind = CKind.specializes :=
  ⟨rfl, rfl, rfl⟩

/-- C4 (amended): the solver's initial `sorted(constraints)` is a
permutation of the input ordered by ascending `Kind.value`, i.e. all
equality constraints first, then all *specialization* constraints, then
all conformance constraints, then all disjunctions; the main loop pops
from the front of this list (`runSolver` dispatches on the head). -/
theorem C4_sorted_by_kind_value (cs : List Constraint) :
    (sortConstraints cs).Perm cs ∧
    (sortConstraints cs).Pairwise (fun a b => a.kind.val ≤ b.kind.val) :=
  ⟨sortConstraints_perm cs, sortConstraints_sorted cs⟩

/-- The module of the C9 theorem: a function whose body contains an
if-expression, a closure and a match with a when-case. -/
def cex9 : ASTNode := .module 0 [
  .functionDeclaration 1 "f" [] (.nothingN 2 0) (.identifier 3 "Int" [] 0)
    (.ifExpression 4 (.scalarInt 5 1 0)
      (.closureExpression 6 (.nothingN 7 0) none (.scalarInt 8 1 0) 0)
      (.matchExpression 9 (.scalarInt 10 2 0)
        [.whenCase 11 (.scalarInt 12 1 0) (.scalarInt 13 3 0) 0] 0) 0) 30] 0

/-- C9: after the scope-building pass on `cex9`, only the `Module` (node 0)
and the `FunctionDeclaration` (node 1) carry an `inner_scope`; the
`IfExpression` (node 4), the `ClosureExpression` (node 6) and the
`WhenCase` (node 11) are left with `None`, as the pass only implements
the three declaration visitors (FIXME in `scope_builder.py`). -/
theorem C9_scope_nodes_skipped :
    (visitB 10 cex9 initBuild).innerScopes = [(0, 1), (1, 2)] ∧
    lookupPairs (visitB 10 cex9 initBuild).innerScopes 4 = none ∧
    lookupPairs (visitB 10 cex9 initBuild).innerScopes 6 = none ∧
    lookupPairs (visitB 10 cex9 initBuild).innerScopes 11 = none :=
  ⟨rfl, rfl, rfl, rfl⟩

/-- The module `func identity[ T ] {x: T} -> {y: T} = {y = $.x}` of the
C6 scenario (the right operand of the attribute access is sanitized into
a string literal by the parser). -/
def identityModule : ASTNode := .module 0 [
  .functionDeclaration 1 "identity" ["T"]
    (.objectTypeN 2 [.objectTypeProperty 3 "x" (some (.identifier 4 "T" [] 2)) 2] 2)
    (.objectTypeN 5 [.objectTypeProperty 6 "y" (some (.identifier 7 "T" [] 3)) 3] 3)
    (.objectLiteral 8 [.objectLiteralProperty 9 (.scalarString 10 "y" 4)
      (.infixExpression 11 "." (.argRef 12 4) (.scalarString 13 "x" 4) 4) 4] 4)
    1] 0

/-- C6: on the `identity` module the pipeline does not produce a solution:
the signature visitor correctly types the domain `{x: T}` and codomain
`{y: T}` against the placeholder symbol `T`, but
`visit_FunctionDeclaration` then constructs
`FunctionType(domain.type, codomain.type, node.placeholders)` with the
parser's placeholder *name strings* `["T"]`, and the constructor's
`assert isinstance(ph, TypePlaceholder)` fails, so constraint inference
dies with an `AssertionError` before emitting a single constraint and the
solver is never reached. -/
theorem C6_identity_pipeline_asserts :
    (pipeline 12 identityModule).infer.raised =
      some (.assertFail "FunctionType placeholder is not a TypePlaceholder") ∧
    (pipeline 12 identityModule).infer.constraints = [] ∧
    (pipeline 12 identityModule).infer.nodeTypes =
      [(4, .placeholder 1 "T"),
       (2, .object (.cons "x" (.placeholder 1 "T") .nil) []),
       (7, .placeholder 1 "T"),
       (5, .object (.cons "y" (.placeholder 1 "T") .nil) [])] ∧
    mkFunctionType (.object (.cons "x" (.placeholder 1 "T") .nil) [])
      (.object (.cons "y" (.placeholder 1 "T") .nil) [])
      (["T"].map PlaceholderItem.str) =
      .error (.assertFail "FunctionType placeholder is not a TypePlaceholder") :=
  ⟨rfl, rfl, rfl, rfl⟩

/-- The specialization constraint of the C1 counterexample: explicit args
`{T: Int}` against a generic function type whose placeholder list holds
the `TypePlaceholder` object `T`. -/
def c1args : Constraint := .mk 0 .specializes (.var 5)
  (.function (.var 1) (.var 2) [.ph 0 "T"]) [("T", .ground "Int")] [] 3

/-- C1 (counterexample): a `Specializes` constraint whose explicit args all
*name* placeholders of the right side (here the single arg `T` names the
right side's only placeholder) is nevertheless rejected as `superfluous
explicit specializations`, because `set(constraint.args) -
set(b.placeholders)` subtracts a set of `TypePlaceholder` objects from a
set of name strings and a string never equals a placeholder object; the
claim instead requires the solver to specialize and solve an equality. -/
theorem C1_counterexample :
    solveConstraint 10 c1args [] [] =
      .fail (.sem (.semantic "superfluous explicit specializations" 3)) ∧
    c1args.args.map Prod.fst = ["T"] ∧
    placeholdersAttr (.function (.var 1) (.var 2) [.ph 0 "T"]) = [.ph 0 "T"] :=
  ⟨rfl, rfl, rfl⟩

/-- C1 (amended): for a `Specializes` constraint whose walked right side is
not a type variable and has a non-empty placeholder list, and whose
explicit argument dictionary is *empty* (any non-empty args are rejected,
see the counterexample), the solver specializes the right side against the
walked left side — substituting each placeholder by the matched pattern
and failing with *SpecializationError* when a placeholder is matched
against two differing patterns — and then solves an equality between the
specialized type and the left side. -/
theorem C1_specialization_path (recFuel : Nat) (c : Constraint)
    (rest : List Constraint) (sol : Sol) (a b : Ty)
    (hkind : c.kind = .specializes)
    (hargs : c.args = [])
    (hwa : walk sol c.lhs = .ok a)
    (hwb : walk sol c.rhs = .ok b)
    (hbvar : b.isVar = false)
    (hph : (placeholdersAttr b).isEmpty = false) :
    solveConstraint recFuel c rest sol =
      (match specialize c.srange b a [] with
       | .error f => .fail f
       | .ok sp =>
         match unify recFuel sol sp.1 a c.srange with
         | .ok sol2 => .next rest sol2
         | .error f => .fail f) ∧
    (∀ (i : Nat) (nm : String) (p : Ty) (memo : List (Nat × Ty)),
      lookupNat memo i = none →
        specialize c.srange (.placeholder i nm) p memo = .ok (p, memo ++ [(i, p)])) ∧
    (∀ (i : Nat) (nm : String) (p q : Ty) (memo : List (Nat × Ty)),
      lookupNat memo i = some q → Ty.beq q p = false →
        specialize c.srange (.placeholder i nm) p memo =
          .error (.sem (.specializationFailure c.srange))) := by
  refine ⟨?_, ?_, ?_⟩
  · simp only [solveConstraint, hkind, solveSpecialization, hwa, hwb, hbvar,
      Bool.false_eq_true, if_false, hph, hargs, List.map_nil, List.filter_nil,
      List.isEmpty_nil, Bool.not_true]
  · intro i nm p memo hmemo
    simp [specialize, hmemo]
  · intro i nm p q memo hmemo hne
    simp [specialize, hmemo, hne]

/-- C1 (witness): on the constraint `Specializes(v9, [T]{u: T} -> T, {})`
the amended path applies and solves the produced equality, binding `v9`
to the generic function type. -/
def c1empty : Constraint := .mk 0 .specializes (.var 9)
  (.function (.object (.cons "u" (.placeholder 0 "T") .nil) [])
    (.placeholder 0 "T") [.ph 0 "T"]) [] [] 3

theorem C1_specialization_path_witness :
    solveConstraint 5 c1empty [] [] =
      .next [] [(9, .function (.object (.cons "u" (.placeholder 0 "T") .nil) [])
        (.placeholder 0 "T") [.ph 0 "T"])] := by
  rw [(C1_specialization_path 5 c1empty [] [] (.var 9)
    (.function (.object (.cons "u" (.placeholder 0 "T") .nil) [])
      (.placeholder 0 "T") [.ph 0 "T"]) rfl rfl rfl rfl rfl rfl).1]
  rfl

/-- The all-successful drain of sub-solver outputs: when every child run
completed (within fuel) and raised nothing, the drain yields every
child's elements in order. -/
theorem combineOuts_all_ok : ∀ (outs : List (Option GenOutput)),
    (∀ o ∈ outs, ∃ g, o = some g ∧ g.raised = none) →
    combineOuts outs =
      some ⟨(outs.map (fun o => (o.getD ⟨[], none⟩).yielded)).flatten, none⟩
  | [], _ => rfl
  | o :: rest, h => by
    rcases h o (List.mem_cons_self o rest) with ⟨g, rfl, hg⟩
    have ih := combineOuts_all_ok rest (fun o2 ho2 => h o2 (List.mem_cons_of_mem _ ho2))
    simp [combineOuts, hg, ih]

/-- C10: the generator protocol of `ConstraintSolver.solutions`.  First: a
`SemanticError` raised while solving the front constraint is caught,
yielded as an element, and the generator returns — no further elements,
nothing raised to the consumer.  Second: a disjunction is replaced by one
child solver per choice and the drain is the concatenation of the
children's outputs in `pop()` (reverse) order.  Third: when no child
raises, every child's yielded elements — solution dictionaries and error
objects alike — appear in the drained output, so sibling branches survive
one branch's failure, and a consumer must test each element for being an
error before treating it as a solution. -/
theorem C10_generator_protocol :
    (∀ (fuel recFuel dwFuel : Nat) (prevs : List (List Nat)) (c : Constraint)
      (rest : List Constraint) (sol : Sol) (e : SemErr),
      prevs.any (fun l => l == cids (c :: rest)) = false →
      solveConstraint recFuel c rest sol = .fail (.sem e) →
      runSolver (fuel+1) recFuel dwFuel prevs (c :: rest) sol =
        some ⟨[.error e], none⟩) ∧
    (∀ (fuel recFuel dwFuel : Nat) (prevs : List (List Nat)) (c : Constraint)
      (rest : List Constraint) (sol : Sol),
      prevs.any (fun l => l == cids (c :: rest)) = false →
      c.kind = .disjunction →
      c.choices.isEmpty = false →
      runSolver (fuel+1) recFuel dwFuel prevs (c :: rest) sol =
        combineOuts (c.choices.reverse.map
          (fun ch => runSolver fuel recFuel dwFuel []
            (sortConstraints (ch :: rest)) sol))) ∧
    (∀ (outs : List (Option GenOutput)),
      (∀ o ∈ outs, ∃ g, o = some g ∧ g.raised = none) →
      combineOuts outs =
        some ⟨(outs.map (fun o => (o.getD ⟨[], none⟩).yielded)).flatten, none⟩) := by
  refine ⟨?_, ?_, combineOuts_all_ok⟩
  · intro fuel recFuel dwFuel prevs c rest sol e hstuck hsolve
    simp [runSolver, hstuck, hsolve]
  · intro fuel recFuel dwFuel prevs c rest sol hstuck hkind hch
    simp only [runSolver, hstuck, Bool.false_eq_true, if_false,
      solveConstraint, hkind, hch]

/-- C10 (witness): a disjunction of a failing and a succeeding choice is
drained into a solution followed by the sibling branch's yielded
`UnificationError`. -/
def c10bad : Constraint := .mk 1 .equals (.ground "Int") (.ground "Float") [] [] 1

def c10good : Constraint := .mk 2 .equals (.var 0) (.ground "Int") [] [] 2

def c10disj : Constraint := .mk 0 .disjunction (.ground "X") (.ground "X") []
  [c10bad, c10good] 9

theorem C10_generator_protocol_witness :
    runSolver 20 10 10 [] [c10disj] [] =
      some ⟨[.ok [(0, .ground "Int")],
             .error (.unification (.ground "Int") (.ground "Float")
               "incompatible types" 1)], none⟩ := by
  rw [C10_generator_protocol.2.1 19 10 10 [] c10disj [] [] rfl rfl rfl]
  rfl

/-!  Structural lemmas about the scope builder, used by the C5 theorem:
the pass leaves the scope stack as it found it, only ever appends to the
arena and to the `node.symbol` annotations, and never modifies an existing
scope other than the one on top of the stack when it was entered. -/

theorem insertPlaceholders_stack : ∀ (ps : List String) (st : BuildState),
    (insertPlaceholders st ps).stack = st.stack
  | [], _ => rfl
  | _ :: ps, _ => insertPlaceholders_stack ps _

theorem insertPlaceholders_arena_len : ∀ (ps : List String) (st : BuildState),
    (insertPlaceholders st ps).arena.length = st.arena.length
  | [], _ => rfl
  | p :: ps, st => by
    rw [insertPlaceholders, insertPlaceholders_arena_len ps]
    simp [BuildState.insertTop]

theorem insertPlaceholders_nodeSymbols : ∀ (ps : List String) (st : BuildState),
    (insertPlaceholders st ps).nodeSymbols = st.nodeSymbols
  | [], _ => rfl
  | _ :: ps, _ => insertPlaceholders_nodeSymbols ps _

theorem getScope_set_ne (arena : Arena) (j : Nat) (sc : Scope) (i : Nat)
    (h : i ≠ j) : getScope (arena.set j sc) i = getScope arena i := by
  simp [getScope, List.getD]
  rw [List.getElem?_set_ne (Ne.symm h)]

theorem getScope_append_lt (arena : Arena) (sc : Scope) (i : Nat)
    (h : i < arena.length) : getScope (arena ++ [sc]) i = getScope arena i := by
  simp only [getScope, List.getD]
  rw [List.get?_append h]

theorem insertPlaceholders_frozen : ∀ (ps : List String) (st : BuildState) (i : Nat),
    i ≠ st.top → getScope (insertPlaceholders st ps).arena i = getScope st.arena i
  | [], _, _, _ => rfl
  | p :: ps, st, i, h => by
    rw [insertPlaceholders]
    refine Eq.trans (insertPlaceholders_frozen ps _ i h) ?_
    exact getScope_set_ne _ _ _ _ h

theorem funcScopeSetup_stack (nid : Nat) (phs : List String) (st2 : BuildState) :
    (funcScopeSetup nid phs st2).stack = st2.arena.length :: st2.stack := by
  simp [funcScopeSetup, BuildState.insertTop, insertPlaceholders_stack,
    BuildState.pushScope]

theorem funcScopeSetup_arena_len (nid : Nat) (phs : List String) (st2 : BuildState) :
    (funcScopeSetup nid phs st2).arena.length = st2.arena.length + 1 := by
  simp [funcScopeSetup, BuildState.insertTop, insertPlaceholders_arena_len,
    BuildState.pushScope]

theorem funcScopeSetup_nodeSymbols (nid : Nat) (phs : List String) (st2 : BuildState) :
    (funcScopeSetup nid phs st2).nodeSymbols = st2.nodeSymbols := by
  simp [funcScopeSetup, BuildState.insertTop, insertPlaceholders_nodeSymbols,
    BuildState.pushScope]

theorem funcScopeSetup_frozen (nid : Nat) (phs : List String) (st2 : BuildState)
    (i : Nat) (hlen : i < st2.arena.length) :
    getScope (funcScopeSetup nid phs st2).arena i = getScope st2.arena i := by
  have htop : i ≠ (insertPlaceholders (st2.pushScope nid) phs).stack.headD 0 := by
    rw [insertPlaceholders_stack]
    simp only [BuildState.pushScope, List.headD_cons]
    omega
  simp only [funcScopeSetup]
  refine Eq.trans (getScope_set_ne _ _ _ _ htop) ?_
  refine Eq.trans (insertPlaceholders_frozen phs _ i ?_) ?_
  · simp only [BuildState.pushScope, BuildState.top, List.headD_cons]
    omega
  · exact getScope_append_lt _ _ _ hlen

theorem typeScopeSetup_stack (nid : Nat) (phs : List String) (st2 : BuildState) :
    (typeScopeSetup nid phs st2).stack = st2.arena.length :: st2.stack := by
  simp [typeScopeSetup, insertPlaceholders_stack, BuildState.pushScope]

theorem typeScopeSetup_arena_len (nid : Nat) (phs : List String) (st2 : BuildState) :
    (typeScopeSetup nid phs st2).arena.length = st2.arena.length + 1 := by
  simp [typeScopeSetup, insertPlaceholders_arena_len, BuildState.pushScope]

theorem typeScopeSetup_frozen (nid : Nat) (phs : List String) (st2 : BuildState)
    (i : Nat) (hlen : i < st2.arena.length) :
    getScope (typeScopeSetup nid phs st2).arena i = getScope st2.arena i := by
  simp only [typeScopeSetup]
  refine Eq.trans (insertPlaceholders_frozen phs _ i ?_) ?_
  · simp only [BuildState.pushScope, BuildState.top, List.headD_cons]
    omega
  · exact getScope_append_lt _ _ _ hlen

theorem foldVisit_stack (fuel : Nat)
    (h : ∀ n st, (visitB fuel n st).stack = st.stack) :
    ∀ (l : List ASTNode) (st : BuildState),
      (l.foldl (fun s d => visitB fuel d s) st).stack = st.stack
  | [], _ => rfl
  | d :: l, st => by
    rw [List.foldl_cons, foldVisit_stack fuel h l (visitB fuel d st), h d st]

theorem visitB_stack : ∀ (fuel : Nat) (n : ASTNode) (st : BuildState),
    (visitB fuel n st).stack = st.stack
  | 0, _, _ => rfl
  | fuel+1, n, st => by
    have hf : ∀ n2 st2, (visitB fuel n2 st2).stack = st2.stack := visitB_stack fuel
    cases n with
    | module nid decls r =>
      simp only [visitB, BuildState.popScope, foldVisit_stack fuel hf,
        BuildState.pushScope, List.tail_cons]
    | functionDeclaration nid nm phs dom cod body r =>
      simp only [visitB]
      cases scopeFirst (getScope st.arena st.top) nm with
      | none =>
        simp [BuildState.popScope, hf, funcScopeSetup_stack, BuildState.insertTop]
      | some sym =>
        cases hb : sym.overloadable with
        | false => simp [hb]
        | true =>
          simp [hb, BuildState.popScope, hf, funcScopeSetup_stack,
            BuildState.insertTop]
    | typeDeclaration nid nm phs body r =>
      simp only [visitB]
      cases scopeFirst (getScope st.arena st.top) nm with
      | none =>
        simp [BuildState.popScope, hf, typeScopeSetup_stack, BuildState.insertTop,
          insertPlaceholders_stack]
      | some sym => rfl
    | functionTypeN nid d c r => exact foldVisit_stack fuel hf _ _
    | objectTypeN nid ps r => exact foldVisit_stack fuel hf _ _
    | objectTypeProperty nid nm a r => exact foldVisit_stack fuel hf _ _
    | unionTypeN nid ts r => exact foldVisit_stack fuel hf _ _
    | closureExpression nid d c b r => exact foldVisit_stack fuel hf _ _
    | infixExpression nid o l rr r => exact foldVisit_stack fuel hf _ _
    | callExpression nid cl a r => exact foldVisit_stack fuel hf _ _
    | ifExpression nid c t e r => exact foldVisit_stack fuel hf _ _
    | matchExpression nid sj cs r => exact foldVisit_stack fuel hf _ _
    | whenCase nid p b r => exact foldVisit_stack fuel hf _ _
    | elseCase nid b r => exact foldVisit_stack fuel hf _ _
    | identifier nid nm sp r => exact foldVisit_stack fuel hf _ _
    | scalarString nid v r => exact foldVisit_stack fuel hf _ _
    | scalarInt nid v r => exact foldVisit_stack fuel hf _ _
    | objectLiteral nid ps r => exact foldVisit_stack fuel hf _ _
    | objectLiteralProperty nid k v r => exact foldVisit_stack fuel hf _ _
    | listLiteral nid is r => exact foldVisit_stack fuel hf _ _
    | argRef nid r => exact foldVisit_stack fuel hf _ _
    | nothingN nid r => exact foldVisit_stack fuel hf _ _

theorem foldVisit_arena_le (fuel : Nat)
    (hle : ∀ n st, st.arena.length ≤ (visitB fuel n st).arena.length) :
    ∀ (l : List ASTNode) (st : BuildState),
      st.arena.length ≤ ((l.foldl (fun s d => visitB fuel d s) st)).arena.length
  | [], _ => Nat.le_refl _
  | d :: l, st => by
    rw [List.foldl_cons]
    exact Nat.le_trans (hle d st) (foldVisit_arena_le fuel hle l (visitB fuel d st))

theorem visitB_arena_le : ∀ (fuel : Nat) (n : ASTNode) (st : BuildState),
    st.arena.length ≤ (visitB fuel n st).arena.length
  | 0, _, _ => Nat.le_refl _
  | fuel+1, n, st => by
    have hle : ∀ n2 st2, st2.arena.length ≤ (visitB fuel n2 st2).arena.length :=
      visitB_arena_le fuel
    cases n with
    | module nid decls r =>
      refine Nat.le_trans ?_ (foldVisit_arena_le fuel hle _ _)
      simp [visitB, BuildState.pushScope]
      all_goals omega
    | functionDeclaration nid nm phs dom cod body r =>
      simp only [visitB]
      cases scopeFirst (getScope st.arena st.top) nm with
      | none =>
        refine Nat.le_trans ?_ (foldVisit_arena_le fuel hle _ _)
        rw [funcScopeSetup_arena_len]
        simp [BuildState.insertTop]
      | some sym =>
        cases hb : sym.overloadable with
        | false => simp [hb]
        | true =>
          simp only [hb, Bool.not_true, Bool.false_eq_true, if_false]
          refine Nat.le_trans ?_ (foldVisit_arena_le fuel hle _ _)
          rw [funcScopeSetup_arena_len]
          simp
    | typeDeclaration nid nm phs body r =>
      simp only [visitB]
      cases scopeFirst (getScope st.arena st.top) nm with
      | none =>
        refine Nat.le_trans ?_ (hle body _)
        rw [typeScopeSetup_arena_len]
        simp [BuildState.insertTop]
      | some sym => exact Nat.le_refl _
    | functionTypeN nid d c r => exact foldVisit_arena_le fuel hle _ _
    | objectTypeN nid ps r => exact foldVisit_arena_le fuel hle _ _
    | objectTypeProperty nid nm a r => exact foldVisit_arena_le fuel hle _ _
    | unionTypeN nid ts r => exact foldVisit_arena_le fuel hle _ _
    | closureExpression nid d c b r => exact foldVisit_arena_le fuel hle _ _
    | infixExpression nid o l rr r => exact foldVisit_arena_le fuel hle _ _
    | callExpression nid cl a r => exact foldVisit_arena_le fuel hle _ _
    | ifExpression nid c t e r => exact foldVisit_arena_le fuel hle _ _
    | matchExpression nid sj cs r => exact foldVisit_arena_le fuel hle _ _
    | whenCase nid p b r => exact foldVisit_arena_le fuel hle _ _
    | elseCase nid b r => exact foldVisit_arena_le fuel hle _ _
    | identifier nid nm sp r => exact foldVisit_arena_le fuel hle _ _
    | scalarString nid v r => exact foldVisit_arena_le fuel hle _ _
    | scalarInt nid v r => exact foldVisit_arena_le fuel hle _ _
    | objectLiteral nid ps r => exact foldVisit_arena_le fuel hle _ _
    | objectLiteralProperty nid k v r => exact foldVisit_arena_le fuel hle _ _
    | listLiteral nid is r => exact foldVisit_arena_le fuel hle _ _
    | argRef nid r => exact foldVisit_arena_le fuel hle _ _
    | nothingN nid r => exact foldVisit_arena_le fuel hle _ _

theorem foldVisit_frozen (fuel : Nat)
    (hstack : ∀ n st, (visitB fuel n st).stack = st.stack)
    (hle : ∀ n st, st.arena.length ≤ (visitB fuel n st).arena.length)
    (hfr : ∀ n st i, i < st.arena.length → i ≠ st.stack.headD 0 →
      getScope (visitB fuel n st).arena i = getScope st.arena i) :
    ∀ (l : List ASTNode) (st : BuildState) (i : Nat),
      i < st.arena.length → i ≠ st.stack.headD 0 →
      getScope ((l.foldl (fun s d => visitB fuel d s) st)).arena i =
        getScope st.arena i
  | [], _, _, _, _ => rfl
  | d :: l, st, i, hlen, htop => by
    rw [List.foldl_cons]
    refine Eq.trans (foldVisit_frozen fuel hstack hle hfr l (visitB fuel d st) i
      (Nat.lt_of_lt_of_le hlen (hle d st)) (by rw [hstack d st]; exact htop)) ?_
    exact hfr d st i hlen htop

theorem visitB_frozen : ∀ (fuel : Nat) (n : ASTNode) (st : BuildState) (i : Nat),
    i < st.arena.length → i ≠ st.stack.headD 0 →
    getScope (visitB fuel n st).arena i = getScope st.arena i
  | 0, _, _, _, _, _ => rfl
  | fuel+1, n, st, i, hlen, htop => by
    have hstack := visitB_stack fuel
    have hle := visitB_arena_le fuel
    have hfr : ∀ n2 st2 i2, i2 < st2.arena.length → i2 ≠ st2.stack.headD 0 →
        getScope (visitB fuel n2 st2).arena i2 = getScope st2.arena i2 :=
      visitB_frozen fuel
    cases n with
    | module nid decls r =>
      refine Eq.trans (foldVisit_frozen fuel hstack hle hfr decls
        (st.pushScope nid) i ?_ ?_) (getScope_append_lt _ _ _ hlen)
      · simp only [BuildState.pushScope, List.length_append, List.length_cons,
          List.length_nil]
        omega
      · simp only [BuildState.pushScope, List.headD_cons]
        omega
    | functionDeclaration nid nm phs dom cod body r =>
      have htop2 : i ≠ st.top := htop
      simp only [visitB]
      cases scopeFirst (getScope st.arena st.top) nm with
      | none =>
        refine Eq.trans (foldVisit_frozen fuel hstack hle hfr [dom, cod, body]
          _ i ?_ ?_) ?_
        · rw [funcScopeSetup_arena_len]
          simp [BuildState.insertTop]
          omega
        · rw [funcScopeSetup_stack]
          simp [BuildState.insertTop]
          omega
        · refine Eq.trans (funcScopeSetup_frozen nid phs _ i (by
            simp [BuildState.insertTop]; omega)) ?_
          exact getScope_set_ne _ _ _ _ htop2
      | some sym =>
        cases hb : sym.overloadable with
        | false => simp [hb]
        | true =>
          simp only [hb, Bool.not_true, Bool.false_eq_true, if_false]
          refine Eq.trans (foldVisit_frozen fuel hstack hle hfr [dom, cod, body]
            _ i ?_ ?_) ?_
          · rw [funcScopeSetup_arena_len]
            exact Nat.lt_succ_of_lt hlen
          · rw [funcScopeSetup_stack]
            simp only [List.headD_cons]
            exact Nat.ne_of_lt hlen
          · exact funcScopeSetup_frozen nid phs _ i hlen
    | typeDeclaration nid nm phs body r =>
      have htop2 : i ≠ st.top := htop
      simp only [visitB]
      cases scopeFirst (getScope st.arena st.top) nm with
      | none =>
        refine Eq.trans (hfr body _ i ?_ ?_) ?_
        · rw [typeScopeSetup_arena_len]
          simp [BuildState.insertTop]
          omega
        · rw [typeScopeSetup_stack]
          simp [BuildState.insertTop]
          omega
        · refine Eq.trans (typeScopeSetup_frozen nid phs _ i (by
            simp [BuildState.insertTop]; omega)) ?_
          exact getScope_set_ne _ _ _ _ htop2
      | some sym => rfl
    | functionTypeN nid d c r => exact foldVisit_frozen fuel hstack hle hfr _ _ i hlen htop
    | objectTypeN nid ps r => exact foldVisit_frozen fuel hstack hle hfr _ _ i hlen htop
    | objectTypeProperty nid nm a r => exact foldVisit_frozen fuel hstack hle hfr _ _ i hlen htop
    | unionTypeN nid ts r => exact foldVisit_frozen fuel hstack hle hfr _ _ i hlen htop
    | closureExpression nid d c b r => exact foldVisit_frozen fuel hstack hle hfr _ _ i hlen htop
    | infixExpression nid o l rr r => exact foldVisit_frozen fuel hstack hle hfr _ _ i hlen htop
    | callExpression nid cl a r => exact foldVisit_frozen fuel hstack hle hfr _ _ i hlen htop
    | ifExpression nid c t e r => exact foldVisit_frozen fuel hstack hle hfr _ _ i hlen htop
    | matchExpression nid sj cs r => exact foldVisit_frozen fuel hstack hle hfr _ _ i hlen htop
    | whenCase nid p b r => exact foldVisit_frozen fuel hstack hle hfr _ _ i hlen htop
    | elseCase nid b r => exact foldVisit_frozen fuel hstack hle hfr _ _ i hlen htop
    | identifier nid nm sp r => exact foldVisit_frozen fuel hstack hle hfr _ _ i hlen htop
    | scalarString nid v r => exact foldVisit_frozen fuel hstack hle hfr _ _ i hlen htop
    | scalarInt nid v r => exact foldVisit_frozen fuel hstack hle hfr _ _ i hlen htop
    | objectLiteral nid ps r => exact foldVisit_frozen fuel hstack hle hfr _ _ i hlen htop
    | objectLiteralProperty nid k v r => exact foldVisit_frozen fuel hstack hle hfr _ _ i hlen htop
    | listLiteral nid is r => exact foldVisit_frozen fuel hstack hle hfr _ _ i hlen htop
    | argRef nid r => exact foldVisit_frozen fuel hstack hle hfr _ _ i hlen htop
    | nothingN nid r => exact foldVisit_frozen fuel hstack hle hfr _ _ i hlen htop

theorem foldVisit_nodeSymbols (fuel : Nat)
    (h : ∀ n st x, x ∈ st.nodeSymbols → x ∈ (visitB fuel n st).nodeSymbols) :
    ∀ (l : List ASTNode) (st : BuildState) (x : Nat × Symbol),
      x ∈ st.nodeSymbols → x ∈ ((l.foldl (fun s d => visitB fuel d s) st)).nodeSymbols
  | [], _, _, hx => hx
  | d :: l, st, x, hx => by
    rw [List.foldl_cons]
    exact foldVisit_nodeSymbols fuel h l (visitB fuel d st) x (h d st x hx)

theorem visitB_nodeSymbols_mono : ∀ (fuel : Nat) (n : ASTNode) (st : BuildState)
    (x : Nat × Symbol), x ∈ st.nodeSymbols → x ∈ (visitB fuel n st).nodeSymbols
  | 0, _, _, _, hx => hx
  | fuel+1, n, st, x, hx => by
    have h : ∀ n2 st2 x2, x2 ∈ st2.nodeSymbols →
        x2 ∈ (visitB fuel n2 st2).nodeSymbols := visitB_nodeSymbols_mono fuel
    cases n with
    | module nid decls r =>
      exact foldVisit_nodeSymbols fuel h decls (st.pushScope nid) x hx
    | functionDeclaration nid nm phs dom cod body r =>
      simp only [visitB]
      cases scopeFirst (getScope st.arena st.top) nm with
      | none =>
        refine foldVisit_nodeSymbols fuel h [dom, cod, body] _ x ?_
        show x ∈ (funcScopeSetup nid phs _).nodeSymbols
        rw [funcScopeSetup_nodeSymbols]
        exact List.mem_append_left _ hx
      | some sym =>
        cases hb : sym.overloadable with
        | false => simpa [hb] using hx
        | true =>
          simp only [hb, Bool.not_true, Bool.false_eq_true, if_false]
          refine foldVisit_nodeSymbols fuel h [dom, cod, body] _ x ?_
          show x ∈ (funcScopeSetup nid phs _).nodeSymbols
          rw [funcScopeSetup_nodeSymbols]
          exact List.mem_append_left _ hx
    | typeDeclaration nid nm phs body r =>
      simp only [visitB]
      cases scopeFirst (getScope st.arena st.top) nm with
      | none =>
        refine h body _ x ?_
        show x ∈ (typeScopeSetup nid phs _).nodeSymbols
        simp only [typeScopeSetup, insertPlaceholders_nodeSymbols,
          BuildState.pushScope]
        exact List.mem_append_left _ hx
      | some sym => exact hx
    | functionTypeN nid d c r => exact foldVisit_nodeSymbols fuel h _ _ x hx
    | objectTypeN nid ps r => exact foldVisit_nodeSymbols fuel h _ _ x hx
    | objectTypeProperty nid nm a r => exact foldVisit_nodeSymbols fuel h _ _ x hx
    | unionTypeN nid ts r => exact foldVisit_nodeSymbols fuel h _ _ x hx
    | closureExpression nid d c b r => exact foldVisit_nodeSymbols fuel h _ _ x hx
    | infixExpression nid o l rr r => exact foldVisit_nodeSymbols fuel h _ _ x hx
    | callExpression nid cl a r => exact foldVisit_nodeSymbols fuel h _ _ x hx
    | ifExpression nid c t e r => exact foldVisit_nodeSymbols fuel h _ _ x hx
    | matchExpression nid sj cs r => exact foldVisit_nodeSymbols fuel h _ _ x hx
    | whenCase nid p b r => exact foldVisit_nodeSymbols fuel h _ _ x hx
    | elseCase nid b r => exact foldVisit_nodeSymbols fuel h _ _ x hx
    | identifier nid nm sp r => exact foldVisit_nodeSymbols fuel h _ _ x hx
    | scalarString nid v r => exact foldVisit_nodeSymbols fuel h _ _ x hx
    | scalarInt nid v r => exact foldVisit_nodeSymbols fuel h _ _ x hx
    | objectLiteral nid ps r => exact foldVisit_nodeSymbols fuel h _ _ x hx
    | objectLiteralProperty nid k v r => exact foldVisit_nodeSymbols fuel h _ _ x hx
    | listLiteral nid is r => exact foldVisit_nodeSymbols fuel h _ _ x hx
    | argRef nid r => exact foldVisit_nodeSymbols fuel h _ _ x hx
    | nothingN nid r => exact foldVisit_nodeSymbols fuel h _ _ x hx

/-- The module of the C5 counterexample: two function declarations named
`f` side by side. -/
def cex5 : ASTNode := .module 0 [
  .functionDeclaration 1 "f" [] (.nothingN 2 0) (.identifier 3 "Int" [] 0)
    (.scalarInt 4 1 0) 10,
  .functionDeclaration 5 "f" [] (.nothingN 6 0) (.identifier 7 "Int" [] 0)
    (.scalarInt 8 2 0) 20] 0

/-- C5 (counterexample): after scope building on a module with two
`func f` declarations, the module scope's list for `f` holds a *single*
overloadable symbol — not one per declaration — and both declarations'
`symbol` annotations reference that same symbol (sid 12). -/
theorem C5_counterexample :
    (getScope (visitB 10 cex5 initBuild).arena 1).symbols =
      [("f", [⟨12, "f", .var 0, true⟩])] ∧
    (visitB 10 cex5 initBuild).nodeSymbols =
      [(1, ⟨12, "f", .var 0, true⟩), (5, ⟨12, "f", .var 0, true⟩)] ∧
    (visitB 10 cex5 initBuild).errors = [] :=
  ⟨rfl, rfl, rfl⟩

/-- C5 (amended): when a `FunctionDeclaration` is visited while its name
already resolves, in the scope on top of the stack, to an overloadable
symbol, the builder *reuses* that symbol — it records it as the
declaration's `symbol` annotation and inserts nothing, leaving the
enclosing scope's symbol dictionary (and in particular the list at that
name) unchanged; so the list at a (scope, name) pair holds one symbol per
*name*, however many function declarations share it. -/
theorem C5_overloadable_reuse (fuel : Nat) (nid : Nat) (nm : String)
    (phs : List String) (dom cod body : ASTNode) (r : Nat) (st : BuildState)
    (s : Symbol)
    (htoplen : st.top < st.arena.length)
    (hfirst : scopeFirst (getScope st.arena st.top) nm = some s)
    (hover : s.overloadable = true) :
    (nid, s) ∈ (visitB (fuel+1)
      (.functionDeclaration nid nm phs dom cod body r) st).nodeSymbols ∧
    getScope (visitB (fuel+1)
      (.functionDeclaration nid nm phs dom cod body r) st).arena st.top =
      getScope st.arena st.top := by
  have hstack := visitB_stack fuel
  have hle := visitB_arena_le fuel
  have hfr : ∀ n2 st2 i2, i2 < st2.arena.length → i2 ≠ st2.stack.headD 0 →
      getScope (visitB fuel n2 st2).arena i2 = getScope st2.arena i2 :=
    visitB_frozen fuel
  have hmono : ∀ n2 st2 x2, x2 ∈ st2.nodeSymbols →
      x2 ∈ (visitB fuel n2 st2).nodeSymbols := visitB_nodeSymbols_mono fuel
  constructor
  · simp only [visitB, hfirst, hover, Bool.not_true, Bool.false_eq_true, if_false]
    refine foldVisit_nodeSymbols fuel hmono [dom, cod, body] _ (nid, s) ?_
    show (nid, s) ∈ (funcScopeSetup nid phs _).nodeSymbols
    rw [funcScopeSetup_nodeSymbols]
    exact List.mem_append_right _ (List.mem_singleton.mpr rfl)
  · simp only [visitB, hfirst, hover, Bool.not_true, Bool.false_eq_true, if_false]
    refine Eq.trans (foldVisit_frozen fuel hstack hle hfr [dom, cod, body]
      _ st.top ?_ ?_) ?_
    · rw [funcScopeSetup_arena_len]
      exact Nat.lt_succ_of_lt htoplen
    · rw [funcScopeSetup_stack]
      simp only [List.headD_cons]
      exact Nat.ne_of_lt htoplen
    · exact funcScopeSetup_frozen nid phs _ st.top htoplen

/-- C5 (witness for the amended theorem): in a module scope already holding
the overloadable symbol of a first `func f`, a second `func f` is recorded
against the same symbol and the scope's dictionary is untouched. -/
def c5sym : Symbol := ⟨12, "f", .var 0, true⟩

def c5state : BuildState :=
  ⟨[builtinScope, ⟨some 0, [("f", [c5sym])]⟩], [1, 0], [], [(0, 1)], [(1, c5sym)],
    1, 13, 1⟩

theorem C5_overloadable_reuse_witness :
    (5, c5sym) ∈ (visitB 6
      (.functionDeclaration 5 "f" [] (.nothingN 6 0) (.identifier 7 "Int" [] 0)
        (.scalarInt 8 2 0) 20) c5state).nodeSymbols ∧
    getScope (visitB 6
      (.functionDeclaration 5 "f" [] (.nothingN 6 0) (.identifier 7 "Int" [] 0)
        (.scalarInt 8 2 0) 20) c5state).arena c5state.top =
      getScope c5state.arena c5state.top :=
  C5_overloadable_reuse 5 5 "f" [] (.nothingN 6 0) (.identifier 7 "Int" [] 0)
    (.scalarInt 8 2 0) 20 c5state c5sym (by decide) rfl rfl

/-!  The occurs discipline of yielded solutions.  `unify` extends the
substitution only at an unbound variable, with a value that has been
walked at top level; `Good` records exactly that insertion discipline. -/

/-- The insertion discipline of `unify`: each binding, at the time it is
appended, maps an unbound variable to a type that is not itself a bound
variable (and not the variable being bound). -/
inductive Good : Sol → Prop where
  | nil : Good []
  | snoc (sol : Sol) (a : Nat) (b : Ty) (hg : Good sol)
      (ha : lookupNat sol a = none)
      (hb : ∀ w, b = .var w → lookupNat sol w = none ∧ w ≠ a) :
      Good (sol ++ [(a, b)])

/-- The occurs discipline of a yielded solution dictionary: each value
mentions, through the positions the walking functions traverse, only
variables unbound in the dictionary. -/
def SolOk (m : Sol) : Prop :=
  ∀ v t, (v, t) ∈ m → ∀ w, occursW w t = true → lookupNat m w = none

theorem lookupNat_append_some (l1 l2 : List (Nat × Ty)) (k : Nat) (v : Ty)
    (h : lookupNat l1 k = some v) : lookupNat (l1 ++ l2) k = some v := by
  induction l1 with
  | nil => simp [lookupNat] at h
  | cons p r ih =>
    cases p with
    | mk a b =>
      simp only [lookupNat, List.cons_append] at h ⊢
      by_cases hk : (a == k) = true
      · rw [if_pos hk] at h ⊢; exact h
      · rw [if_neg hk] at h ⊢; exact ih h

theorem lookupNat_append_none (l1 l2 : List (Nat × Ty)) (k : Nat)
    (h : lookupNat l1 k = none) : lookupNat (l1 ++ l2) k = lookupNat l2 k := by
  induction l1 with
  | nil => rfl
  | cons p r ih =>
    cases p with
    | mk a b =>
      simp only [lookupNat, List.cons_append] at h ⊢
      by_cases hk : (a == k) = true
      · rw [if_pos hk] at h; exact absurd h (by simp)
      · rw [if_neg hk] at h ⊢; exact ih h

theorem lookupNat_snoc_none (sol : Sol) (a : Nat) (b : Ty) (w : Nat)
    (hw : lookupNat sol w = none) (hwa : w ≠ a) :
    lookupNat (sol ++ [(a, b)]) w = none := by
  rw [lookupNat_append_none sol [(a, b)] w hw]
  simp only [lookupNat]
  rw [if_neg]
  simp only [beq_iff_eq]
  exact fun h => hwa h.symm

theorem lookupNat_mem (l : List (Nat × Ty)) (k : Nat) (v : Ty)
    (h : lookupNat l k = some v) : (k, v) ∈ l := by
  induction l with
  | nil => simp [lookupNat] at h
  | cons p r ih =>
    cases p with
    | mk a b =>
      simp only [lookupNat] at h
      by_cases hk : (a == k) = true
      · rw [if_pos hk] at h
        injection h with h2
        subst h2
        have : a = k := by simpa using hk
        subst this
        exact List.mem_cons_self _ _
      · rw [if_neg hk] at h
        exact List.mem_cons_of_mem _ (ih h)

theorem lookupNat_none_iff (l : List (Nat × Ty)) (k : Nat) :
    lookupNat l k = none ↔ k ∉ l.map Prod.fst := by
  induction l with
  | nil => simp [lookupNat]
  | cons p r ih =>
    cases p with
    | mk a b =>
      simp only [lookupNat, List.map_cons, List.mem_cons]
      by_cases hk : (a == k) = true
      · rw [if_pos hk]
        have : a = k := by simpa using hk
        subst this
        simp
      · rw [if_neg hk]
        have hne : a ≠ k := by simpa using hk
        rw [ih]
        constructor
        · intro hnk hor
          rcases hor with h1 | h2
          · exact hne h1.symm
          · exact hnk h2
        · intro hnk h2
          exact hnk (Or.inr h2)

/-- `walk` reaching a variable means that variable is unbound. -/
theorem walkF_ok_var_unbound (sol : Sol) :
    ∀ (fuel : Nat) (t : Ty) (v : Nat), walkF sol fuel t = .ok (.var v) →
      lookupNat sol v = none
  | 0, _, _, h => by simp [walkF] at h
  | fuel+1, t, v, h => by
    cases t
    case var w =>
      simp only [walkF] at h
      cases hl : lookupNat sol w with
      | some t2 =>
        rw [hl] at h
        exact walkF_ok_var_unbound sol fuel t2 v h
      | none =>
        rw [hl] at h
        simp only [Except.ok.injEq, Ty.var.injEq] at h
        subst h
        exact hl
    all_goals simp [walkF] at h

/-- A resolved type is a fixed point of one walking step. -/
theorem walkF_resolved (sol : Sol) (u : Ty)
    (h : ∀ w, u = .var w → lookupNat sol w = none) (fuel : Nat) :
    walkF sol (fuel + 1) u = .ok u := by
  cases u
  case var w =>
    show (match lookupNat sol w with
      | some t2 => walkF sol fuel t2
      | none => Except.ok (Ty.var w)) = Except.ok (Ty.var w)
    rw [h w rfl]
  all_goals rfl

/-- Extending the substitution by a disciplined binding only changes walk
results that ended at the newly bound variable, which now take one extra
step to the (already resolved) new value. -/
theorem walkF_snoc (sol : Sol) (a : Nat) (b : Ty)
    (hb : ∀ w, b = .var w → lookupNat sol w = none ∧ w ≠ a) :
    ∀ (fuel : Nat) (t u : Ty), walkF sol fuel t = .ok u →
      walkF (sol ++ [(a, b)]) (fuel + 1) t =
        .ok (if Ty.beq u (.var a) then b else u)
  | 0, _, _, h => by simp [walkF] at h
  | fuel+1, t, u, h => by
    cases t
    case var v =>
      simp only [walkF] at h
      show (match lookupNat (sol ++ [(a, b)]) v with
        | some t2 => walkF (sol ++ [(a, b)]) (fuel + 1) t2
        | none => Except.ok (Ty.var v)) =
        Except.ok (if Ty.beq u (.var a) then b else u)
      cases hl : lookupNat sol v with
      | some t2 =>
        rw [hl] at h
        rw [lookupNat_append_some sol [(a, b)] v t2 hl]
        exact walkF_snoc sol a b hb fuel t2 u h
      | none =>
        rw [hl] at h
        simp only [Except.ok.injEq] at h
        subst h
        have hlext : lookupNat (sol ++ [(a, b)]) v =
            if (a == v) = true then some b else none := by
          rw [lookupNat_append_none sol [(a, b)] v hl]
          simp [lookupNat]
        by_cases hva : (a == v) = true
        · have hav : a = v := by simpa using hva
          subst hav
          rw [if_pos (by simp)] at hlext
          rw [hlext]
          rw [if_pos (Ty.beq_refl (Ty.var a))]
          have hres : walkF (sol ++ [(a, b)]) (fuel + 1) b = .ok b := by
            refine walkF_resolved (sol ++ [(a, b)]) b ?_ fuel
            intro w hw
            rcases hb w hw with ⟨hw1, hw2⟩
            exact lookupNat_snoc_none sol a b w hw1 hw2
          exact hres
        · rw [if_neg hva] at hlext
          have hnc : ¬(Ty.beq (.var v) (.var a) = true) := by
            simp only [Ty.beq, beq_iff_eq]
            exact fun hh => hva (by simp [hh])
          rw [hlext, if_neg hnc]
    all_goals
      simp only [walkF, Except.ok.injEq] at h
      subst h
      rfl

/-- Under the insertion discipline, walking terminates within the exact
fuel `walk` uses, and ends at an unbound variable or a non-variable. -/
theorem good_walkF (sol : Sol) (hg : Good sol) :
    ∀ (fuel : Nat), sol.length + 1 ≤ fuel → ∀ (t : Ty),
      ∃ u, walkF sol fuel t = .ok u ∧
        ∀ w, u = .var w → lookupNat sol w = none := by
  induction hg with
  | nil =>
    intro fuel hf t
    cases fuel with
    | zero => omega
    | succ f =>
      cases t
      case var v => exact ⟨.var v, rfl, fun w _ => rfl⟩
      all_goals exact ⟨_, rfl, fun w hw => nomatch hw⟩
  | snoc sol a b hg2 ha hb ih =>
    intro fuel hf t
    cases fuel with
    | zero =>
      exfalso
      simp [List.length_append] at hf
    | succ f =>
      have hf2 : sol.length + 1 ≤ f := by
        simp only [List.length_append, List.length_cons, List.length_nil] at hf
        omega
      obtain ⟨u, hu, hres⟩ := ih f hf2 t
      refine ⟨if Ty.beq u (.var a) then b else u,
        walkF_snoc sol a b hb f t u hu, ?_⟩
      intro w hw
      by_cases hbeq : Ty.beq u (.var a) = true
      · rw [if_pos hbeq] at hw
        rcases hb w hw with ⟨hw1, hw2⟩
        exact lookupNat_snoc_none sol a b w hw1 hw2
      · rw [if_neg hbeq] at hw
        have hwa : w ≠ a := by
          intro hh
          subst hh
          subst hw
          exact hbeq (Ty.beq_refl _)
        exact lookupNat_snoc_none sol a b w (hres w hw) hwa

theorem good_walk (sol : Sol) (hg : Good sol) (t : Ty) :
    ∃ u, walk sol t = .ok u ∧ ∀ w, u = .var w → lookupNat sol w = none :=
  good_walkF sol hg (sol.length + 1) (Nat.le_refl _) t

/-- The failing unification report (two deep walks, then an error) never
produces a success. -/
theorem deepWalk_bind_error {sol : Sol} {fuel : Nat} {x y : Ty} {m : String}
    {r : Nat} {s2 : Sol}
    (h : (do
      let a3 ← deepWalk sol fuel x
      let b3 ← deepWalk sol fuel y
      Except.error (Failure.sem (SemErr.unification a3 b3 m r))) =
      Except.ok s2) : False := by
  cases h1 : deepWalk sol fuel x with
  | error f => simp [h1, Bind.bind, Except.bind] at h
  | ok a3 =>
    cases h2 : deepWalk sol fuel y with
    | error f => simp [h1, h2, Bind.bind, Except.bind] at h
    | ok b3 => simp [h1, h2, Bind.bind, Except.bind] at h

/-- The object-property loop of `unify` preserves the insertion
discipline, provided each recursive unification does. -/
theorem unifyProps_good
    (u : Sol → Ty → Ty → Except Failure Sol) (dw : Sol → Ty → Except Failure Ty)
    (aF bF : Ty) (r : Nat) (ps2 : Props)
    (hu : ∀ s x y s2, Good s → u s x y = .ok s2 → Good s2) :
    ∀ (ps1 : Props) (sol sol2 : Sol), Good sol →
      unifyProps u dw aF bF r ps2 sol ps1 = .ok sol2 → Good sol2
  | .nil, sol, sol2, hgs, h => by
    simp only [unifyProps, Except.ok.injEq] at h
    subst h
    exact hgs
  | .cons k v rest, sol, sol2, hgs, h => by
    simp only [unifyProps] at h
    cases hl : ps2.lookup k with
    | none =>
      rw [hl] at h
      cases h1 : dw sol aF with
      | error f => simp [h1, Bind.bind, Except.bind] at h
      | ok a3 =>
        cases h2 : dw sol bF with
        | error f => simp [h1, h2, Bind.bind, Except.bind] at h
        | ok b3 => simp [h1, h2, Bind.bind, Except.bind] at h
    | some v2 =>
      rw [hl] at h
      cases hu2 : u sol v v2 with
      | error f => simp [hu2, Bind.bind, Except.bind] at h
      | ok sol3 =>
        simp only [hu2, Bind.bind, Except.bind] at h
        exact unifyProps_good u dw aF bF r ps2 hu rest sol3 sol2
          (hu sol v v2 sol3 hgs hu2) h

/-- `unify` preserves the insertion discipline: every substitution it
returns extends a disciplined one by disciplined bindings. -/
theorem unify_good : ∀ (fuel : Nat) (sol : Sol) (t0 t1 : Ty) (r : Nat)
    (sol2 : Sol), Good sol → unify fuel sol t0 t1 r = .ok sol2 → Good sol2
  | 0, sol, t0, t1, r, sol2, hg, h => by simp [unify] at h
  | fuel+1, sol, t0, t1, r, sol2, hg, h => by
    cases hwa : walk sol t0 with
    | error f => simp [unify, hwa, Bind.bind, Except.bind] at h
    | ok a =>
      cases hwb : walk sol t1 with
      | error f => simp [unify, hwa, hwb, Bind.bind, Except.bind] at h
      | ok b =>
        simp only [unify, hwa, hwb, Bind.bind, Except.bind] at h
        cases hab : Ty.beq a b with
        | true =>
          rw [hab, if_pos rfl] at h
          simp only [Except.ok.injEq] at h
          subst h
          exact hg
        | false =>
          rw [hab] at h
          simp only [Bool.false_eq_true, if_false] at h
          cases a
          case var v =>
            simp only [Except.ok.injEq] at h
            subst h
            refine Good.snoc sol v b hg
              (walkF_ok_var_unbound sol (sol.length + 1) t0 v hwa) ?_
            intro w hw
            subst hw
            refine ⟨walkF_ok_var_unbound sol (sol.length + 1) t1 w hwb, ?_⟩
            intro hwv
            subst hwv
            rw [Ty.beq_refl] at hab
            exact Bool.noConfusion hab
          case function d1 c1 p1 =>
            cases b
            case var w =>
              simp only [Except.ok.injEq] at h
              subst h
              exact Good.snoc sol w _ hg
                (walkF_ok_var_unbound sol (sol.length + 1) t1 w hwb)
                (fun w2 hw2 => nomatch hw2)
            case function d2 c2 p2 =>
              cases hu1 : unify fuel sol d1 d2 r with
              | error f => simp [hu1, Bind.bind, Except.bind] at h
              | ok sol3 =>
                simp only [hu1, Bind.bind, Except.bind] at h
                exact unify_good fuel sol3 c1 c2 r sol2
                  (unify_good fuel sol d1 d2 r sol3 hg hu1) h
            all_goals exact (deepWalk_bind_error h).elim
          case object ps1 phs1 =>
            cases b
            case var w =>
              simp only [Except.ok.injEq] at h
              subst h
              exact Good.snoc sol w _ hg
                (walkF_ok_var_unbound sol (sol.length + 1) t1 w hwb)
                (fun w2 hw2 => nomatch hw2)
            case object ps2 phs2 =>
              simp only [] at h
              by_cases hsug : (sugarSide ps1 || sugarSide ps2) = true
              · rw [if_pos hsug] at h
                cases ps1 with
                | nil =>
                  cases ps2 with
                  | nil => simp at h
                  | cons k2 v2 r2 => simp at h
                | cons k1 v1 r1 =>
                  cases ps2 with
                  | nil => simp at h
                  | cons k2 v2 r2 => exact unify_good fuel sol v1 v2 r sol2 hg h
              · rw [if_neg hsug] at h
                exact unifyProps_good _ _ _ _ r ps2
                  (fun s x y s2 hgs h2 => unify_good fuel s x y r s2 hgs h2)
                  ps1 sol sol2 hg h
            all_goals exact (deepWalk_bind_error h).elim
          all_goals
            (cases b
             case var w =>
               simp only [Except.ok.injEq] at h
               subst h
               exact Good.snoc sol w _ hg
                 (walkF_ok_var_unbound sol (sol.length + 1) t1 w hwb)
                 (fun w2 hw2 => nomatch hw2)
             all_goals exact (deepWalk_bind_error h).elim)

/-- The conformance property loop preserves the insertion discipline. -/
theorem confProps_good
    (c : Sol → Ty → Ty → Except Failure Sol) (aF bF : Ty) (r : Nat)
    (ps2 : Props)
    (hc : ∀ s x y s2, Good s → c s x y = .ok s2 → Good s2) :
    ∀ (ps1 : Props) (sol sol2 : Sol), Good sol →
      confProps c aF bF r ps2 sol ps1 = .ok sol2 → Good sol2
  | .nil, sol, sol2, hgs, h => by
    simp only [confProps, Except.ok.injEq] at h
    subst h
    exact hgs
  | .cons k v rest, sol, sol2, hgs, h => by
    simp only [confProps] at h
    cases hl : ps2.lookup k with
    | none =>
      rw [hl] at h
      exact Except.noConfusion h
    | some v2 =>
      rw [hl] at h
      cases hc2 : c sol v v2 with
      | error f => simp [hc2, Bind.bind, Except.bind] at h
      | ok sol3 =>
        simp only [hc2, Bind.bind, Except.bind] at h
        exact confProps_good c aF bF r ps2 hc rest sol3 sol2
          (hc sol v v2 sol3 hgs hc2) h

/-- `check_conformance` preserves the insertion discipline. -/
theorem checkConf_good : ∀ (fuel : Nat) (sol : Sol) (t0 t1 : Ty) (r : Nat)
    (sol2 : Sol), Good sol → checkConf fuel sol t0 t1 r = .ok sol2 → Good sol2
  | 0, sol, t0, t1, r, sol2, hg, h => by simp [checkConf] at h
  | fuel+1, sol, t0, t1, r, sol2, hg, h => by
    cases hwa : walk sol t0 with
    | error f => simp [checkConf, hwa, Bind.bind, Except.bind] at h
    | ok a =>
      cases hwb : walk sol t1 with
      | error f => simp [checkConf, hwa, hwb, Bind.bind, Except.bind] at h
      | ok b =>
        simp only [checkConf, hwa, hwb, Bind.bind, Except.bind] at h
        split at h
        · simp only [Except.ok.injEq] at h
          subst h
          exact hg
        · rename_i hnot
          clear hnot
          cases a
          case object ps1 phs1 =>
            cases b
            case object ps2 phs2 =>
              simp only [] at h
              by_cases hsug : (sugarSide ps1 || sugarSide ps2) = true
              · rw [if_pos hsug] at h
                cases ps1 with
                | nil =>
                  cases ps2 with
                  | nil => simp at h
                  | cons k2 v2 r2 => simp at h
                | cons k1 v1 r1 =>
                  cases ps2 with
                  | nil => simp at h
                  | cons k2 v2 r2 =>
                    exact checkConf_good fuel sol v1 v2 r sol2 hg h
              · rw [if_neg hsug] at h
                exact confProps_good _ _ _ r ps2
                  (fun s x y s2 hgs h2 => checkConf_good fuel s x y r s2 hgs h2)
                  ps1 sol sol2 hg h
            all_goals exact Except.noConfusion h
          case var v => exact unify_good fuel sol (.var v) b r sol2 hg h
          all_goals exact Except.noConfusion h

/-- One solver step preserves the insertion discipline of the partial
substitution. -/
theorem solveConstraint_good (recFuel : Nat) (c : Constraint)
    (rest : List Constraint) (sol : Sol) (cs2 : List Constraint) (sol2 : Sol)
    (hg : Good sol) (h : solveConstraint recFuel c rest sol = .next cs2 sol2) :
    Good sol2 := by
  cases c with
  | mk cid kind lhs rhs args ch r =>
    cases kind with
    | equals =>
      simp only [solveConstraint, Constraint.kind, Constraint.lhs,
        Constraint.rhs, Constraint.srange] at h
      cases hu : unify recFuel sol lhs rhs r with
      | error f => rw [hu] at h; exact StepResult.noConfusion h
      | ok s =>
        rw [hu] at h
        simp only [StepResult.next.injEq] at h
        rcases h with ⟨h1, h2⟩
        subst h2
        exact unify_good recFuel sol lhs rhs r s hg hu
    | conforms =>
      simp only [solveConstraint, Constraint.kind, solveConformity,
        Constraint.lhs, Constraint.rhs, Constraint.srange] at h
      cases hwa : walk sol lhs with
      | error f =>
        cases hwb : walk sol rhs with
        | error f2 => rw [hwa, hwb] at h; exact StepResult.noConfusion h
        | ok b => rw [hwa, hwb] at h; exact StepResult.noConfusion h
      | ok a =>
        cases hwb : walk sol rhs with
        | error f => rw [hwa, hwb] at h; exact StepResult.noConfusion h
        | ok b =>
          simp only [hwa, hwb] at h
          split at h
          · simp only [StepResult.next.injEq] at h
            rcases h with ⟨h1, h2⟩
            subst h2
            exact hg
          · split at h
            · cases hu : unify recFuel sol lhs rhs r with
              | error f => rw [hu] at h; exact StepResult.noConfusion h
              | ok s =>
                rw [hu] at h
                simp only [StepResult.next.injEq] at h
                rcases h with ⟨h1, h2⟩
                subst h2
                exact unify_good recFuel sol lhs rhs r s hg hu
            · cases hcc : checkConf recFuel sol a b r with
              | error f => rw [hcc] at h; exact StepResult.noConfusion h
              | ok s =>
                rw [hcc] at h
                simp only [StepResult.next.injEq] at h
                rcases h with ⟨h1, h2⟩
                subst h2
                exact checkConf_good recFuel sol a b r s hg hcc
    | specializes =>
      simp only [solveConstraint, Constraint.kind, solveSpecialization,
        Constraint.lhs, Constraint.rhs, Constraint.srange, Constraint.args] at h
      cases hwa : walk sol lhs with
      | error f =>
        cases hwb : walk sol rhs with
        | error f2 => rw [hwa, hwb] at h; exact StepResult.noConfusion h
        | ok b => rw [hwa, hwb] at h; exact StepResult.noConfusion h
      | ok a =>
        cases hwb : walk sol rhs with
        | error f => rw [hwa, hwb] at h; exact StepResult.noConfusion h
        | ok b =>
          simp only [hwa, hwb] at h
          split at h
          · simp only [StepResult.next.injEq] at h
            rcases h with ⟨h1, h2⟩
            subst h2
            exact hg
          · split at h
            · cases hu : unify recFuel sol lhs rhs r with
              | error f => rw [hu] at h; exact StepResult.noConfusion h
              | ok s =>
                rw [hu] at h
                simp only [StepResult.next.injEq] at h
                rcases h with ⟨h1, h2⟩
                subst h2
                exact unify_good recFuel sol lhs rhs r s hg hu
            · split at h
              · exact StepResult.noConfusion h
              · cases hsp : specialize r b a [] with
                | error f => rw [hsp] at h; exact StepResult.noConfusion h
                | ok sp =>
                  rw [hsp] at h
                  simp only [] at h
                  cases hu : unify recFuel sol sp.1 a r with
                  | error f => rw [hu] at h; exact StepResult.noConfusion h
                  | ok s =>
                    rw [hu] at h
                    simp only [StepResult.next.injEq] at h
                    rcases h with ⟨h1, h2⟩
                    subst h2
                    exact unify_good recFuel sol sp.1 a r s hg hu
    | disjunction =>
      simp only [solveConstraint, Constraint.kind] at h
      exact StepResult.noConfusion h

/-- Mapping deep walk over property values: every walk-traversed variable
of an output value is unbound, provided that holds for the per-value
function. -/
theorem propsMapValsM_occursW
    (f : Ty → Except Failure Ty) (sol : Sol)
    (hf : ∀ t t2, f t = .ok t2 → ∀ w, occursW w t2 = true →
      lookupNat sol w = none) :
    ∀ (ps ps2 : Props), propsMapValsM f ps = .ok ps2 →
      ∀ w, propsOccursW w ps2 = true → lookupNat sol w = none
  | .nil, ps2, h, w, hw => by
    simp only [propsMapValsM, Except.ok.injEq] at h
    subst h
    simp [propsOccursW] at hw
  | .cons k v rest, ps2, h, w, hw => by
    simp only [propsMapValsM, Bind.bind, Except.bind] at h
    cases hv : f v with
    | error f2 => rw [hv] at h; exact Except.noConfusion h
    | ok v2 =>
      rw [hv] at h
      simp only [] at h
      cases hr : propsMapValsM f rest with
      | error f2 => rw [hr] at h; exact Except.noConfusion h
      | ok r2 =>
        rw [hr] at h
        simp only [Except.ok.injEq] at h
        subst h
        simp only [propsOccursW, Bool.or_eq_true] at hw
        rcases hw with hw1 | hw2
        · exact hf v v2 hv w hw1
        · exact propsMapValsM_occursW f sol hf rest r2 hr w hw2

/-- Under the insertion discipline, a successful deep walk returns a type
whose walk-traversed variables are all unbound: the variable case ends at
an unbound variable, the alias, function and object cases recurse, and
every other type falls to the catch-all of `occursW` as it does in
`deep_walk` itself. -/
theorem deepWalk_occursW (sol : Sol) (hg : Good sol) :
    ∀ (fuel : Nat) (t u : Ty), deepWalk sol fuel t = .ok u →
      ∀ w, occursW w u = true → lookupNat sol w = none
  | 0, t, u, h => by simp [deepWalk] at h
  | fuel+1, t, u, h => by
    cases t
    case var v =>
      intro w hw
      simp only [deepWalk, Bind.bind, Except.bind] at h
      cases hwk : walk sol (.var v) with
      | error f => rw [hwk] at h; exact Except.noConfusion h
      | ok w2 =>
        rw [hwk] at h
        simp only [] at h
        cases w2
        case var v2 =>
          simp only [Except.ok.injEq] at h
          subst h
          simp only [occursW, beq_iff_eq] at hw
          subst hw
          exact walkF_ok_var_unbound sol (sol.length + 1) (.var v) _ hwk
        all_goals exact deepWalk_occursW sol hg fuel _ u h w hw
    case «alias» s0 =>
      intro w hw
      simp only [deepWalk, Bind.bind, Except.bind] at h
      cases hds : deepWalk sol fuel s0 with
      | error f => rw [hds] at h; exact Except.noConfusion h
      | ok s2 =>
        rw [hds] at h
        simp only [Except.ok.injEq] at h
        subst h
        simp only [occursW] at hw
        exact deepWalk_occursW sol hg fuel s0 s2 hds w hw
    case function d c phs =>
      intro w hw
      simp only [deepWalk, Bind.bind, Except.bind] at h
      cases hd : deepWalk sol fuel d with
      | error f => rw [hd] at h; exact Except.noConfusion h
      | ok d2 =>
        rw [hd] at h
        simp only [] at h
        cases hc : deepWalk sol fuel c with
        | error f => rw [hc] at h; exact Except.noConfusion h
        | ok c2 =>
          rw [hc] at h
          simp only [Except.ok.injEq] at h
          subst h
          simp only [occursW, Bool.or_eq_true] at hw
          rcases hw with hw1 | hw2
          · exact deepWalk_occursW sol hg fuel d d2 hd w hw1
          · exact deepWalk_occursW sol hg fuel c c2 hc w hw2
    case object ps phs =>
      intro w hw
      simp only [deepWalk, Bind.bind, Except.bind] at h
      cases hps : propsMapValsM (fun x => deepWalk sol fuel x) ps with
      | error f => rw [hps] at h; exact Except.noConfusion h
      | ok ps2 =>
        rw [hps] at h
        simp only [Except.ok.injEq] at h
        subst h
        simp only [occursW] at hw
        exact propsMapValsM_occursW _ sol
          (fun t t2 h2 w2 hw2 => deepWalk_occursW sol hg fuel t t2 h2 w2 hw2)
          ps ps2 hps w hw
    all_goals
      (simp only [deepWalk, Except.ok.injEq] at h
       subst h
       intro w hw
       exact absurd hw (by simp [occursW]))

/-- The yielded dictionary comprehension preserves the key sequence. -/
theorem solDeepWalk_keys (dwFuel : Nat) (sol : Sol) :
    ∀ (l m : Sol), solDeepWalk dwFuel sol l = .ok m →
      m.map Prod.fst = l.map Prod.fst
  | [], m, h => by
    simp only [solDeepWalk, Except.ok.injEq] at h
    subst h
    rfl
  | (v, t) :: r, m, h => by
    simp only [solDeepWalk, Bind.bind, Except.bind] at h
    cases hd : deepWalk sol dwFuel t with
    | error f => rw [hd] at h; exact Except.noConfusion h
    | ok t2 =>
      rw [hd] at h
      simp only [] at h
      cases hr : solDeepWalk dwFuel sol r with
      | error f => rw [hr] at h; exact Except.noConfusion h
      | ok r2 =>
        rw [hr] at h
        simp only [Except.ok.injEq] at h
        subst h
        simp only [List.map_cons]
        rw [solDeepWalk_keys dwFuel sol r r2 hr]

/-- Every entry of the yielded dictionary is the deep walk of an entry of
the substitution. -/
theorem solDeepWalk_mem (dwFuel : Nat) (sol : Sol) :
    ∀ (l m : Sol), solDeepWalk dwFuel sol l = .ok m →
      ∀ v t2, (v, t2) ∈ m → ∃ t, (v, t) ∈ l ∧ deepWalk sol dwFuel t = .ok t2
  | [], m, h, v, t2, hm => by
    simp only [solDeepWalk, Except.ok.injEq] at h
    subst h
    simp at hm
  | (v0, t0) :: r, m, h, v, t2, hm => by
    simp only [solDeepWalk, Bind.bind, Except.bind] at h
    cases hd : deepWalk sol dwFuel t0 with
    | error f => rw [hd] at h; exact Except.noConfusion h
    | ok u0 =>
      rw [hd] at h
      simp only [] at h
      cases hr : solDeepWalk dwFuel sol r with
      | error f => rw [hr] at h; exact Except.noConfusion h
      | ok r2 =>
        rw [hr] at h
        simp only [Except.ok.injEq] at h
        subst h
        rcases List.mem_cons.mp hm with heq | hmem
        · injection heq with h1 h2
          subst h1
          subst h2
          exact ⟨t0, List.mem_cons_self _ _, hd⟩
        · rcases solDeepWalk_mem dwFuel sol r r2 hr v t2 hmem with ⟨t, ht, hdt⟩
          exact ⟨t, List.mem_cons_of_mem _ ht, hdt⟩

/-- A dictionary yielded from a disciplined substitution satisfies the
occurs discipline. -/
theorem yieldSol_solOk (dwFuel : Nat) (sol : Sol) (hg : Good sol) :
    ∀ m, Except.ok m ∈ (yieldSol dwFuel sol).yielded → SolOk m := by
  intro m hm
  unfold yieldSol at hm
  cases hsd : solDeepWalk dwFuel sol sol with
  | error f => rw [hsd] at hm; simp at hm
  | ok m0 =>
    rw [hsd] at hm
    simp only [List.mem_singleton, Except.ok.injEq] at hm
    subst hm
    intro v t hvt w hw
    obtain ⟨t0, hmem0, hdw⟩ := solDeepWalk_mem dwFuel sol sol m hsd v t hvt
    have hnone := deepWalk_occursW sol hg dwFuel t0 t hdw w hw
    rw [lookupNat_none_iff] at hnone ⊢
    rw [solDeepWalk_keys dwFuel sol sol m hsd]
    exact hnone

/-- Every element yielded by the drain loop comes from one of the drained
sub-generators. -/
theorem combineOuts_mem : ∀ (outs : List (Option GenOutput)) (out : GenOutput),
    combineOuts outs = some out → ∀ x ∈ out.yielded,
      ∃ g, some g ∈ outs ∧ x ∈ g.yielded
  | [], out, h, x, hx => by
    simp only [combineOuts, Option.some.injEq] at h
    subst h
    simp at hx
  | none :: rest, out, h, x, hx => by simp [combineOuts] at h
  | some o :: rest, out, h, x, hx => by
    simp only [combineOuts] at h
    by_cases hro : o.raised.isSome = true
    · rw [if_pos hro] at h
      simp only [Option.some.injEq] at h
      subst h
      exact ⟨o, List.mem_cons_self _ _, hx⟩
    · rw [if_neg hro] at h
      cases hc : combineOuts rest with
      | none => rw [hc] at h; exact Option.noConfusion h
      | some o2 =>
        rw [hc] at h
        simp only [Option.some.injEq] at h
        subst h
        rcases List.mem_append.mp hx with hx1 | hx2
        · exact ⟨o, List.mem_cons_self _ _, hx1⟩
        · rcases combineOuts_mem rest o2 hc x hx2 with ⟨g, hg1, hg2⟩
          exact ⟨g, List.mem_cons_of_mem _ hg1, hg2⟩

/-- Every solution dictionary yielded by the solver loop, started from a
disciplined substitution, satisfies the occurs discipline. -/
theorem runSolver_solOk :
    ∀ (loopFuel recFuel dwFuel : Nat) (prevs : List (List Nat))
      (cs : List Constraint) (sol : Sol) (out : GenOutput),
      Good sol → runSolver loopFuel recFuel dwFuel prevs cs sol = some out →
      ∀ m, Except.ok m ∈ out.yielded → SolOk m
  | 0, recFuel, dwFuel, prevs, cs, sol, out, hg, h => by
    simp [runSolver] at h
  | loopFuel+1, recFuel, dwFuel, prevs, cs, sol, out, hg, h => by
    intro m hm
    cases cs with
    | nil =>
      simp only [runSolver, Option.some.injEq] at h
      subst h
      exact yieldSol_solOk dwFuel sol hg m hm
    | cons c rest =>
      simp only [runSolver] at h
      by_cases hstuck : (prevs.any fun l => l == cids (c :: rest)) = true
      · rw [if_pos hstuck] at h
        simp only [Option.some.injEq] at h
        subst h
        simp at hm
      · rw [if_neg hstuck] at h
        cases hsc : solveConstraint recFuel c rest sol with
        | next cs2 sol2 =>
          rw [hsc] at h
          exact runSolver_solOk loopFuel recFuel dwFuel _ cs2 sol2 out
            (solveConstraint_good recFuel c rest sol cs2 sol2 hg hsc) h m hm
        | fail f =>
          rw [hsc] at h
          cases f with
          | sem e =>
            simp only [Option.some.injEq] at h
            subst h
            simp only [List.mem_singleton] at hm
            exact Except.noConfusion hm
          | fuel =>
            simp only [Option.some.injEq] at h
            subst h
            simp at hm
          | assertFail s =>
            simp only [Option.some.injEq] at h
            subst h
            simp at hm
        | spawn choices =>
          rw [hsc] at h
          simp only [] at h
          by_cases hemp : choices.isEmpty = true
          · rw [if_pos hemp] at h
            simp only [Option.some.injEq] at h
            subst h
            exact yieldSol_solOk dwFuel sol hg m hm
          · rw [if_neg hemp] at h
            rcases combineOuts_mem _ out h _ hm with ⟨g, hgmem, hxg⟩
            rcases List.mem_map.mp hgmem with ⟨ch, hch, hrun⟩
            exact runSolver_solOk loopFuel recFuel dwFuel []
              (sortConstraints (ch :: rest)) sol g hg hrun m hxg

/-- Under the occurs discipline, walking any variable in the yielded
dictionary terminates with its exact fuel. -/
theorem solOk_walk (m : Sol) (hok : SolOk m) (v : Nat) :
    ∃ u, walk m (.var v) = .ok u := by
  unfold walk
  cases hl : lookupNat m v with
  | none =>
    refine ⟨.var v, ?_⟩
    show (match lookupNat m v with
      | some t2 => walkF m m.length t2
      | none => Except.ok (Ty.var v)) = Except.ok (Ty.var v)
    rw [hl]
  | some t =>
    have hmem := lookupNat_mem m v t hl
    cases m with
    | nil => simp [lookupNat] at hl
    | cons p r =>
      show ∃ u, (match lookupNat (p :: r) v with
        | some t2 => walkF (p :: r) (r.length + 1) t2
        | none => Except.ok (Ty.var v)) = Except.ok u
      rw [hl]
      cases t
      case var w =>
        have hw : occursW w (.var w) = true := by simp [occursW]
        have hnone := hok v (.var w) hmem w hw
        exact ⟨.var w, walkF_resolved (p :: r) (.var w)
          (fun w2 hw2 => by
            injection hw2 with hw3
            subst hw3
            exact hnone) r.length⟩
      all_goals exact ⟨_, rfl⟩

/-- C7 (counterexample): the claim says no yielded solution maps a
variable to a type containing a reference to that variable.  The single
constraint `Equals(v0, Union[v0])` walks both sides unchanged, and `unify`
binds `v0` to the union with *no occurs check*; `deep_walk` then leaves
`UnionType` to its catch-all, so the solver yields the solution mapping
`v0` to `Union[v0]` — a direct self-reference. -/
theorem C7_counterexample :
    solverMain 10 10 10
      [.mk 0 .equals (.var 0) (.union (.cons (.var 0) .nil)) [] [] 5] =
      some ⟨[Except.ok [(0, .union (.cons (.var 0) .nil))]], none⟩ ∧
    tyOccurs 0 (.union (.cons (.var 0) .nil)) = true :=
  ⟨rfl, rfl⟩

/-- C7 (amended): in every solution dictionary yielded by the solver, no
variable is mapped, directly or transitively, to a type containing a
*walk-traversed* reference to any bound variable: every variable occurring
in a value at a position `walk`/`deep_walk` traverse (the variable itself,
or inside `TypeAlias`, `FunctionType` or `ObjectType`) is unbound in the
dictionary — in particular no such self-reference exists — and `walk(t)`
terminates, with its exact recursion budget, for every type variable.
Occurrences inside `UnionType`, `ListType` and `SpecializedType` are
excluded: `deep_walk` returns those types unchanged through its catch-all
branch, which is what the counterexample exploits. -/
theorem C7_solutions_occurs_discipline (loopFuel recFuel dwFuel : Nat)
    (cs : List Constraint) (out : GenOutput) (m : Sol)
    (hrun : solverMain loopFuel recFuel dwFuel cs = some out)
    (hm : Except.ok m ∈ out.yielded) :
    (∀ v t, (v, t) ∈ m → ∀ w, occursW w t = true → lookupNat m w = none) ∧
    (∀ v, ∃ u, walk m (.var v) = .ok u) := by
  have hok : SolOk m :=
    runSolver_solOk loopFuel recFuel dwFuel [] (sortConstraints cs) [] out
      Good.nil hrun m hm
  exact ⟨hok, fun v => solOk_walk m hok v⟩

/-- C7 (witness for the amended theorem): the solution yielded for the
single constraint `Equals(v0, Int)` maps `v0` to `Int`; its values mention
no bound variable and walking any variable terminates. -/
theorem C7_solutions_occurs_discipline_witness :
    (∀ v t, (v, t) ∈ [((0 : Nat), Ty.ground "Int")] → ∀ w,
      occursW w t = true → lookupNat [((0 : Nat), Ty.ground "Int")] w = none) ∧
    (∀ v, ∃ u, walk [((0 : Nat), Ty.ground "Int")] (.var v) = .ok u) :=
  C7_solutions_occurs_discipline 3 3 3
    [.mk 0 .equals (.var 0) (.ground "Int") [] [] 7]
    ⟨[Except.ok [(0, .ground "Int")]], none⟩ [(0, .ground "Int")] rfl
    (List.mem_singleton.mpr rfl)

/-!  Termination of the solver loop.  The measure is the disjunction
weight of the work list; deferrals rotate the list, and the snapshot
window forces the unsolvable-system detector to fire after at most one
full rotation. -/

mutual
/-- The disjunction weight of a constraint: one more than the total
weight of its choices (one, for the three binary kinds). -/
def weight : Constraint → Nat
  | .mk _ _ _ _ _ ch _ => weightList ch + 1

/-- Total weight of a constraint list. -/
def weightList : List Constraint → Nat
  | [] => 0
  | c :: r => weight c + weightList r
end

/-- Rotation of a work list by `k` deferrals. -/
def rotN (k : Nat) (l : List Constraint) : List Constraint :=
  l.drop k ++ l.take k

/-- The snapshot window holds the identity snapshots of the last `k`
rotations of the current base list, as a suffix. -/
def Sfx (prevs : List (List Nat)) (k : Nat) (L : List Constraint) : Prop :=
  ∃ junk, prevs = junk ++ (List.range k).map (fun j => cids (rotN j L))

theorem weight_pos (c : Constraint) : 1 ≤ weight c := by
  cases c with
  | mk cid k lhs rhs args ch r => simp [weight]

theorem weightList_append (l1 l2 : List Constraint) :
    weightList (l1 ++ l2) = weightList l1 + weightList l2 := by
  induction l1 with
  | nil => simp [weightList]
  | cons c r ih =>
    show weightList (c :: (r ++ l2)) = weightList (c :: r) + weightList l2
    simp only [weightList]
    omega

theorem rotN_zero (l : List Constraint) : rotN 0 l = l := by simp [rotN]

theorem rotN_length (k : Nat) (l : List Constraint) :
    (rotN k l).length = l.length := by
  simp only [rotN, List.length_append, List.length_drop, List.length_take]
  omega

theorem rotN_full (l : List Constraint) : rotN l.length l = l := by
  simp [rotN]

theorem rotN_succ (k : Nat) (l : List Constraint) (h : k < l.length)
    (c : Constraint) (rest : List Constraint) (hrot : rotN k l = c :: rest) :
    rotN (k + 1) l = rest ++ [c] := by
  have hdrop : l.drop k = l[k] :: l.drop (k + 1) := List.drop_eq_getElem_cons h
  have htake : l.take (k + 1) = l.take k ++ [l[k]] := by
    rw [List.take_succ, List.getElem?_eq_getElem h]
    rfl
  rw [rotN, hdrop, List.cons_append] at hrot
  injection hrot with h1 h2
  subst h1
  rw [rotN, htake, ← h2, List.append_assoc]

theorem weightList_rotN (k : Nat) (l : List Constraint) :
    weightList (rotN k l) = weightList l := by
  rw [rotN, weightList_append]
  conv_rhs => rw [← List.take_append_drop k l]
  rw [weightList_append]
  omega

theorem weightList_perm (l1 l2 : List Constraint) (h : l1.Perm l2) :
    weightList l1 = weightList l2 := by
  induction h with
  | nil => rfl
  | cons x h2 ih => simp only [weightList, ih]
  | swap x y l => simp only [weightList]; omega
  | trans h1 h2 ih1 ih2 => omega

theorem length_le_weightList (l : List Constraint) :
    l.length ≤ weightList l := by
  induction l with
  | nil => simp [weightList]
  | cons c r ih =>
    have := weight_pos c
    simp only [List.length_cons, weightList]
    omega

theorem weight_le_weightList_of_mem (c : Constraint) (l : List Constraint)
    (h : c ∈ l) : weight c ≤ weightList l := by
  induction l with
  | nil => simp at h
  | cons d r ih =>
    rcases List.mem_cons.mp h with rfl | h2
    · simp only [weightList]; omega
    · have := ih h2
      simp only [weightList]
      omega

theorem takeLast_keep (n : Nat) (junk sfx : List (List Nat))
    (h : sfx.length ≤ n) :
    takeLast n (junk ++ sfx) =
      junk.drop (junk.length + sfx.length - n) ++ sfx := by
  unfold takeLast
  rw [List.length_append, List.drop_append_eq_append_drop,
    show junk.length + sfx.length - n - junk.length = 0 from by omega,
    List.drop_zero]

theorem Sfx_zero (prevs : List (List Nat)) (L : List Constraint) :
    Sfx prevs 0 L :=
  ⟨prevs, by simp⟩

theorem Sfx_step (prevs : List (List Nat)) (k : Nat) (L : List Constraint)
    (hk : k ≤ L.length) (hs : Sfx prevs k L) :
    Sfx (takeLast (rotN k L).length prevs ++ [cids (rotN k L)]) (k + 1) L := by
  rcases hs with ⟨junk, rfl⟩
  have hlen : ((List.range k).map (fun j => cids (rotN j L))).length = k := by
    simp
  rw [rotN_length]
  rw [takeLast_keep L.length junk _ (by rw [hlen]; exact hk)]
  refine ⟨junk.drop (junk.length + ((List.range k).map
    (fun j => cids (rotN j L))).length - L.length), ?_⟩
  rw [List.append_assoc]
  congr 1
  rw [List.range_succ, List.map_append]
  rfl

theorem Sfx_mem_full (prevs : List (List Nat)) (L : List Constraint)
    (hs : Sfx prevs L.length L) (hpos : 0 < L.length) :
    cids L ∈ prevs := by
  rcases hs with ⟨junk, rfl⟩
  refine List.mem_append_right _ ?_
  rw [List.mem_map]
  refine ⟨0, ?_, ?_⟩
  · rw [List.mem_range]
    exact hpos
  · rw [rotN_zero]

/-- `solve_constraint` either consumes the front constraint or defers it
to the back of the list, when it continues the loop. -/
theorem solveConstraint_next_cases (recFuel : Nat) (c : Constraint)
    (rest : List Constraint) (sol : Sol) (cs2 : List Constraint) (sol2 : Sol)
    (h : solveConstraint recFuel c rest sol = .next cs2 sol2) :
    cs2 = rest ∨ cs2 = rest ++ [c] := by
  cases c with
  | mk cid kind lhs rhs args ch r =>
    cases kind with
    | equals =>
      simp only [solveConstraint, Constraint.kind, Constraint.lhs,
        Constraint.rhs, Constraint.srange] at h
      cases hu : unify recFuel sol lhs rhs r with
      | error f => rw [hu] at h; exact StepResult.noConfusion h
      | ok s =>
        rw [hu] at h
        simp only [StepResult.next.injEq] at h
        exact Or.inl h.1.symm
    | conforms =>
      simp only [solveConstraint, Constraint.kind, solveConformity,
        Constraint.lhs, Constraint.rhs, Constraint.srange] at h
      cases hwa : walk sol lhs with
      | error f =>
        cases hwb : walk sol rhs with
        | error f2 => rw [hwa, hwb] at h; exact StepResult.noConfusion h
        | ok b => rw [hwa, hwb] at h; exact StepResult.noConfusion h
      | ok a =>
        cases hwb : walk sol rhs with
        | error f => rw [hwa, hwb] at h; exact StepResult.noConfusion h
        | ok b =>
          simp only [hwa, hwb] at h
          split at h
          · simp only [StepResult.next.injEq] at h
            exact Or.inr h.1.symm
          · split at h
            · cases hu : unify recFuel sol lhs rhs r with
              | error f => rw [hu] at h; exact StepResult.noConfusion h
              | ok s =>
                rw [hu] at h
                simp only [StepResult.next.injEq] at h
                exact Or.inl h.1.symm
            · cases hcc : checkConf recFuel sol a b r with
              | error f => rw [hcc] at h; exact StepResult.noConfusion h
              | ok s =>
                rw [hcc] at h
                simp only [StepResult.next.injEq] at h
                exact Or.inl h.1.symm
    | specializes =>
      simp only [solveConstraint, Constraint.kind, solveSpecialization,
        Constraint.lhs, Constraint.rhs, Constraint.srange, Constraint.args] at h
      cases hwa : walk sol lhs with
      | error f =>
        cases hwb : walk sol rhs with
        | error f2 => rw [hwa, hwb] at h; exact StepResult.noConfusion h
        | ok b => rw [hwa, hwb] at h; exact StepResult.noConfusion h
      | ok a =>
        cases hwb : walk sol rhs with
        | error f => rw [hwa, hwb] at h; exact StepResult.noConfusion h
        | ok b =>
          simp only [hwa, hwb] at h
          split at h
          · simp only [StepResult.next.injEq] at h
            exact Or.inr h.1.symm
          · split at h
            · cases hu : unify recFuel sol lhs rhs r with
              | error f => rw [hu] at h; exact StepResult.noConfusion h
              | ok s =>
                rw [hu] at h
                simp only [StepResult.next.injEq] at h
                exact Or.inl h.1.symm
            · split at h
              · exact StepResult.noConfusion h
              · cases hsp : specialize r b a [] with
                | error f => rw [hsp] at h; exact StepResult.noConfusion h
                | ok sp =>
                  rw [hsp] at h
                  simp only [] at h
                  cases hu : unify recFuel sol sp.1 a r with
                  | error f => rw [hu] at h; exact StepResult.noConfusion h
                  | ok s =>
                    rw [hu] at h
                    simp only [StepResult.next.injEq] at h
                    exact Or.inl h.1.symm
    | disjunction =>
      simp only [solveConstraint, Constraint.kind] at h
      exact StepResult.noConfusion h

/-- A spawn step hands the loop exactly the choices of the front
disjunction. -/
theorem solveConstraint_spawn_cases (recFuel : Nat) (c : Constraint)
    (rest : List Constraint) (sol : Sol) (choices : List Constraint)
    (h : solveConstraint recFuel c rest sol = .spawn choices) :
    choices = c.choices := by
  cases c with
  | mk cid kind lhs rhs args ch r =>
    cases kind with
    | equals =>
      simp only [solveConstraint, Constraint.kind, Constraint.lhs,
        Constraint.rhs, Constraint.srange] at h
      cases hu : unify recFuel sol lhs rhs r with
      | error f => rw [hu] at h; exact StepResult.noConfusion h
      | ok s => rw [hu] at h; exact StepResult.noConfusion h
    | conforms =>
      simp only [solveConstraint, Constraint.kind, solveConformity,
        Constraint.lhs, Constraint.rhs, Constraint.srange] at h
      cases hwa : walk sol lhs with
      | error f =>
        cases hwb : walk sol rhs with
        | error f2 => rw [hwa, hwb] at h; exact StepResult.noConfusion h
        | ok b => rw [hwa, hwb] at h; exact StepResult.noConfusion h
      | ok a =>
        cases hwb : walk sol rhs with
        | error f => rw [hwa, hwb] at h; exact StepResult.noConfusion h
        | ok b =>
          simp only [hwa, hwb] at h
          split at h
          · exact StepResult.noConfusion h
          · split at h
            · cases hu : unify recFuel sol lhs rhs r with
              | error f => rw [hu] at h; exact StepResult.noConfusion h
              | ok s => rw [hu] at h; exact StepResult.noConfusion h
            · cases hcc : checkConf recFuel sol a b r with
              | error f => rw [hcc] at h; exact StepResult.noConfusion h
              | ok s => rw [hcc] at h; exact StepResult.noConfusion h
    | specializes =>
      simp only [solveConstraint, Constraint.kind, solveSpecialization,
        Constraint.lhs, Constraint.rhs, Constraint.srange, Constraint.args] at h
      cases hwa : walk sol lhs with
      | error f =>
        cases hwb : walk sol rhs with
        | error f2 => rw [hwa, hwb] at h; exact StepResult.noConfusion h
        | ok b => rw [hwa, hwb] at h; exact StepResult.noConfusion h
      | ok a =>
        cases hwb : walk sol rhs with
        | error f => rw [hwa, hwb] at h; exact StepResult.noConfusion h
        | ok b =>
          simp only [hwa, hwb] at h
          split at h
          · exact StepResult.noConfusion h
          · split at h
            · cases hu : unify recFuel sol lhs rhs r with
              | error f => rw [hu] at h; exact StepResult.noConfusion h
              | ok s => rw [hu] at h; exact StepResult.noConfusion h
            · split at h
              · exact StepResult.noConfusion h
              · cases hsp : specialize r b a [] with
                | error f => rw [hsp] at h; exact StepResult.noConfusion h
                | ok sp =>
                  rw [hsp] at h
                  simp only [] at h
                  cases hu : unify recFuel sol sp.1 a r with
                  | error f => rw [hu] at h; exact StepResult.noConfusion h
                  | ok s => rw [hu] at h; exact StepResult.noConfusion h
    | disjunction =>
      simp only [solveConstraint, Constraint.kind, Constraint.choices] at h
      simp only [StepResult.spawn.injEq] at h
      subst h
      rfl

/-- The drain loop returns a value when every sub-generator does. -/
theorem combineOuts_ne_none : ∀ (outs : List (Option GenOutput)),
    (∀ o ∈ outs, o ≠ none) → combineOuts outs ≠ none
  | [], _ => by simp [combineOuts]
  | none :: rest, h => absurd rfl (h none (List.mem_cons_self _ _))
  | some o :: rest, h => by
    simp only [combineOuts]
    by_cases hro : o.raised.isSome = true
    · rw [if_pos hro]
      simp
    · rw [if_neg hro]
      cases hc : combineOuts rest with
      | none =>
        exact absurd hc (combineOuts_ne_none rest
          (fun o2 ho2 => h o2 (List.mem_cons_of_mem _ ho2)))
      | some o2 => simp

/-- The solver loop returns within a fuel bound computed from the
disjunction weight of the work list: every continuation either strictly
decreases the weight, or rotates the unchanged list until the snapshot
window forces the unsolvable-system detector to fire after at most one
full rotation. -/
theorem runSolver_total (W0 : Nat) :
    ∀ (lf : Nat) (L : List Constraint) (k recFuel dwFuel : Nat)
      (prevs : List (List Nat)) (cs : List Constraint) (sol : Sol),
      cs = rotN k L → k ≤ L.length → weightList L ≤ W0 →
      weightList L * (W0 + 1) + (L.length - k) + 1 ≤ lf →
      Sfx prevs k L →
      runSolver lf recFuel dwFuel prevs cs sol ≠ none
  | 0, L, k, recFuel, dwFuel, prevs, cs, sol, hcs, hk, hW, hM, hsfx => by
    exfalso
    omega
  | lf+1, L, k, recFuel, dwFuel, prevs, cs, sol, hcs, hk, hW, hM, hsfx => by
    subst hcs
    cases hrot : rotN k L with
    | nil => simp [runSolver]
    | cons c rest =>
      simp only [runSolver]
      by_cases hstuck : (prevs.any fun l => l == cids (c :: rest)) = true
      · rw [if_pos hstuck]
        simp
      · rw [if_neg hstuck]
        have hkn : k < L.length := by
          rcases Nat.lt_or_ge k L.length with hlt | hge
          · exact hlt
          · exfalso
            have hkeq : k = L.length := Nat.le_antisymm hk hge
            subst hkeq
            have hpos : 0 < L.length := by
              have hrl := rotN_length L.length L
              rw [hrot] at hrl
              simp only [List.length_cons] at hrl
              omega
            apply hstuck
            rw [List.any_eq_true]
            refine ⟨cids L, Sfx_mem_full prevs L hsfx hpos, ?_⟩
            have hc2 : cids (c :: rest) = cids L := by rw [← hrot, rotN_full]
            rw [hc2]
            exact beq_self_eq_true _
        have hwl : weightList (c :: rest) = weightList L := by
          rw [← hrot, weightList_rotN]
        cases hsc : solveConstraint recFuel c rest sol with
        | next cs2 sol2 =>
          show runSolver lf recFuel dwFuel
            (takeLast (c :: rest).length prevs ++ [cids (c :: rest)])
            cs2 sol2 ≠ none
          rcases solveConstraint_next_cases recFuel c rest sol cs2 sol2 hsc with
            h1 | h2
          · subst h1
            have hwc := weight_pos c
            have hrle : weightList cs2 + 1 ≤ weightList L := by
              simp only [weightList] at hwl
              omega
            have hX : weightList cs2 * (W0 + 1) + (W0 + 1) ≤
                weightList L * (W0 + 1) := by
              rw [← Nat.succ_mul]
              exact Nat.mul_le_mul_right _ hrle
            have hlr : cs2.length ≤ weightList cs2 := length_le_weightList cs2
            refine runSolver_total W0 lf cs2 0 recFuel dwFuel _ cs2 sol2
              (rotN_zero cs2).symm (Nat.zero_le _) (by omega) (by omega)
              (Sfx_zero _ cs2)
          · subst h2
            have hrot2 : rotN (k + 1) L = rest ++ [c] :=
              rotN_succ k L hkn c rest hrot
            have hsfx2 := Sfx_step prevs k L hk hsfx
            rw [hrot] at hsfx2
            exact runSolver_total W0 lf L (k + 1) recFuel dwFuel _ _ sol2
              hrot2.symm hkn hW (by omega) hsfx2
        | fail f =>
          cases f <;> simp
        | spawn choices =>
          by_cases hemp : choices.isEmpty = true
          · simp [hemp]
          · show (if choices.isEmpty = true then some (yieldSol dwFuel sol)
              else combineOuts (choices.reverse.map
                (fun ch => runSolver lf recFuel dwFuel []
                  (sortConstraints (ch :: rest)) sol))) ≠ none
            rw [if_neg hemp]
            refine combineOuts_ne_none _ ?_
            intro o ho
            rcases List.mem_map.mp ho with ⟨ch, hch, rfl⟩
            have hchmem : ch ∈ choices := List.mem_reverse.mp hch
            have hchoices : choices = c.choices :=
              solveConstraint_spawn_cases recFuel c rest sol choices hsc
            have hwch : weight ch ≤ weightList c.choices :=
              weight_le_weightList_of_mem ch c.choices (hchoices ▸ hchmem)
            have hwc : weight c = weightList c.choices + 1 := by
              cases c with
              | mk cid kind lhs rhs args ch2 r => rfl
            have hsort : weightList (sortConstraints (ch :: rest)) =
                weightList (ch :: rest) :=
              weightList_perm _ _ (sortConstraints_perm _)
            have hrle : weightList (sortConstraints (ch :: rest)) + 1 ≤
                weightList L := by
              rw [hsort]
              simp only [weightList] at hwl ⊢
              omega
            have hX : weightList (sortConstraints (ch :: rest)) * (W0 + 1) +
                (W0 + 1) ≤ weightList L * (W0 + 1) := by
              rw [← Nat.succ_mul]
              exact Nat.mul_le_mul_right _ hrle
            have hlr : (sortConstraints (ch :: rest)).length ≤
                weightList (sortConstraints (ch :: rest)) :=
              length_le_weightList _
            exact runSolver_total W0 lf (sortConstraints (ch :: rest)) 0
              recFuel dwFuel [] _ sol (rotN_zero _).symm (Nat.zero_le _)
              (by omega) (by omega) (Sfx_zero _ _)

/-- C8: the solver terminates on every finite constraint list — a loop
fuel computed from the disjunction weight of the input suffices for
`solutions` to return (so it yields finitely many solutions and/or
errors, collected in a `GenOutput`) — and whenever the identity snapshot
of the remaining work list matches a retained previous snapshot while
constraints remain, the loop raises the semantic error that the
constraint system appears to be unsolvable, located at the front
constraint's source range. -/
theorem C8_solver_terminates (cs : List Constraint) (recFuel dwFuel : Nat) :
    (∀ lf, weightList cs * (weightList cs + 1) + weightList cs + 1 ≤ lf →
      solverMain lf recFuel dwFuel cs ≠ none) ∧
    (∀ (lf2 : Nat) (prevs : List (List Nat)) (c : Constraint)
      (rest : List Constraint) (sol : Sol),
      (prevs.any fun l => l == cids (c :: rest)) = true →
      runSolver (lf2 + 1) recFuel dwFuel prevs (c :: rest) sol =
        some ⟨[], some (.sem (.semantic
          "constraint system appear to be unsolvable" c.srange))⟩) := by
  constructor
  · intro lf hlf
    have hwp : weightList (sortConstraints cs) = weightList cs :=
      weightList_perm _ _ (sortConstraints_perm cs)
    have hlen : (sortConstraints cs).length ≤
        weightList (sortConstraints cs) := length_le_weightList _
    rw [hwp] at hlen
    show runSolver lf recFuel dwFuel [] (sortConstraints cs) [] ≠ none
    refine runSolver_total (weightList cs) lf (sortConstraints cs) 0 recFuel
      dwFuel [] _ [] (rotN_zero _).symm (Nat.zero_le _) (by omega) ?_
      (Sfx_zero _ _)
    rw [hwp]
    omega
  · intro lf2 prevs c rest sol hany
    simp only [runSolver]
    rw [if_pos hany]

/-- C8 (witness): for the single trivially satisfiable constraint
`Equals(A, A)` the computed bound shows fuel 10 suffices, and with the
current snapshot already in the window the very next iteration reports
the unsolvable-system error at the front constraint's range. -/
theorem C8_solver_terminates_witness :
    solverMain 10 5 5 [.mk 0 .equals (.ground "A") (.ground "A") [] [] 3] ≠
      none ∧
    runSolver 1 5 5 [cids [.mk 0 .equals (.ground "A") (.ground "A") [] [] 3]]
      [.mk 0 .equals (.ground "A") (.ground "A") [] [] 3] [] =
      some ⟨[], some (.sem (.semantic
        "constraint system appear to be unsolvable" 3))⟩ :=
  ⟨(C8_solver_terminates
      [.mk 0 .equals (.ground "A") (.ground "A") [] [] 3] 5 5).1 10
      (by simp [weightList, weight]),
    (C8_solver_terminates
      [.mk 0 .equals (.ground "A") (.ground "A") [] [] 3] 5 5).2 0
      [cids [.mk 0 .equals (.ground "A") (.ground "A") [] [] 3]]
      (.mk 0 .equals (.ground "A") (.ground "A") [] [] 3) [] []
      (by simp)⟩

end Mamba
